import Mathlib

set_option maxHeartbeats 2000000
set_option maxRecDepth 8192

/-!
Verification development for the reagenz behavior-tree engine.

The definitions below are a shallow embedding of the engine's core:
the value model (src/value.rs), the outcome model (src/tree/outcome.rs),
the identifier space (src/tree/id_space.rs, src/tree/id_map.rs), the
memoization cache and evaluation contexts (src/tree/context.rs), the IR
evaluator (src/tree/script/runtime.rs), the top-level check entry point
(src/tree.rs), the builder registration functions (src/tree/builder.rs),
and the compiler lowering pass (src/tree/script/compile/produce.rs with
its parse helpers and lexical environment).

Modeling conventions:
* The host view parameter `Ctx` is fixed for the duration of any single
  evaluation, so host handlers are embedded with the view already
  applied: a global is a `Value`, a condition is `List Value → Bool`,
  an effect is `List Value → Option Nat` (the host `Eff` type is
  instantiated to `Nat`), and a query handler is embedded by the value
  stream it yields (the handler contract is that it invokes the
  engine-supplied closure exactly once with its iterator and returns
  the closure's result).
* The external value type `Ext` is instantiated to `Nat`.
* Machine integers (`i32` payloads, `u64` seeds) are embedded as `Int`
  and `Nat`; the `u64` wrapping addition of `Random` seeds is taken
  modulo `2 ^ 64`.
* `f32` is embedded as `F32` below, an abstract float carrying either a
  numeric value or NaN; the derived `PartialEq`/`PartialOrd` semantics
  (NaN is not equal to and not comparable with anything) are spelled
  out in `f32Eq` and `f32PartialCmp`.
* Rust's `&mut` parameters become explicit state passing: the lexical
  slot vector is threaded in and out of evaluation, and the shared
  interior-mutable state (the LRU cache, the current discovery
  collection, and an instrumentation log of effect-handler invocations)
  is threaded as the `St` record.
* The `fastrand` crate is an external collaborator: the runtime shuffle
  it performs is a parameter of the evaluation environment, and the
  compile-time literal seed draw `fastrand::u64(..)` is embedded as an
  arbitrary fixed draw.
* Recursion through node references can diverge in the source, so the
  evaluator takes a fuel parameter; exhausted fuel yields `failure`.
* Panics are embedded as explicit result variants (`RegResult.panicked`)
  or, where statically unreachable, as a documented default branch.
* Source positions attached to compile errors come from the external
  `src_ctx`/`treelang` collaborators and are dropped; compile errors
  are embedded by their kind and semantic payload only.
-/

namespace Reagenz

/-- F32 embeds an `f32` as either NaN or an abstract numeric value. -/
inductive F32 where
  | nan : F32
  | val (q : Rat) : F32
deriving DecidableEq

/-- f32Eq is the IEEE `PartialEq` on `f32` used by the derived
`PartialEq` of `Value`: NaN is not equal to anything, including NaN. -/
def f32Eq : F32 → F32 → Bool
  | F32.val a, F32.val b => a == b
  | _, _ => false

/-- f32PartialCmp is the IEEE `partial_cmp` on `f32`: comparisons
involving NaN yield `none`. -/
def f32PartialCmp : F32 → F32 → Option Ordering
  | F32.val a, F32.val b => some (compare a b)
  | _, _ => none

/-- Value is the universal data type of the engine (src/value.rs,
`enum Value<Ext>` with `Ext` instantiated to `Nat`). The source derives
only `PartialEq` and `PartialOrd` for it. -/
inductive Value where
  | symbol (s : String)
  | int (i : Int)
  | float (f : F32)
  | list (vs : List Value)
  | ext (e : Nat)

mutual

/-- valueEq is the derived `PartialEq` of `Value`: structural equality
with `f32Eq` on floats. -/
def valueEq : Value → Value → Bool
  | Value.symbol a, Value.symbol b => a == b
  | Value.int a, Value.int b => a == b
  | Value.float a, Value.float b => f32Eq a b
  | Value.list a, Value.list b => valueEqList a b
  | Value.ext a, Value.ext b => a == b
  | _, _ => false

/-- valueEqList is the derived `PartialEq` on sequences of values:
equal length and elementwise `valueEq`. -/
def valueEqList : List Value → List Value → Bool
  | [], [] => true
  | a :: as', b :: bs' => valueEq a b && valueEqList as' bs'
  | _, _ => false

end

/-- valueRank gives the variant discriminant order used by the derived
`PartialOrd` of `Value` (declaration order of the variants). -/
def valueRank : Value → Nat
  | Value.symbol _ => 0
  | Value.int _ => 1
  | Value.float _ => 2
  | Value.list _ => 3
  | Value.ext _ => 4

mutual

/-- valuePartialCmp is the derived `PartialOrd` of `Value`: variants are
ordered by declaration order, same-variant payloads are compared
pointwise, and float comparisons involving NaN yield `none`. -/
def valuePartialCmp : Value → Value → Option Ordering
  | Value.symbol a, Value.symbol b => some (compare a b)
  | Value.int a, Value.int b => some (compare a b)
  | Value.float a, Value.float b => f32PartialCmp a b
  | Value.list a, Value.list b => valuePartialCmpList a b
  | Value.ext a, Value.ext b => some (compare a b)
  | a, b => some (compare (valueRank a) (valueRank b))

/-- valuePartialCmpList is the derived lexicographic `PartialOrd` on
sequences of values, with length as the final tiebreaker. -/
def valuePartialCmpList : List Value → List Value → Option Ordering
  | [], [] => some Ordering.eq
  | [], _ :: _ => some Ordering.lt
  | _ :: _, [] => some Ordering.gt
  | a :: as', b :: bs' =>
    match valuePartialCmp a b with
    | some Ordering.eq => valuePartialCmpList as' bs'
    | other => other

end

/-- Action is a produced action value (src/tree/outcome.rs): the action
index, a snapshot of the invocation arguments, and the collected
effects (host `Eff` instantiated to `Nat`). -/
structure Action where
  index : Nat
  arguments : List Value
  effects : List Nat

/-- Outcome is the result of evaluating a node (src/tree/outcome.rs). -/
inductive Outcome where
  | success
  | failure
  | action (a : Action)

/-- Outcome.is_success mirrors `Outcome::is_success`. -/
def Outcome.is_success : Outcome → Bool
  | Outcome.success => true
  | _ => false

/-- Outcome.is_non_success mirrors `Outcome::is_non_success`. -/
def Outcome.is_non_success (o : Outcome) : Bool :=
  !o.is_success

/-- Outcome.is_failure mirrors `Outcome::is_failure`. -/
def Outcome.is_failure : Outcome → Bool
  | Outcome.failure => true
  | _ => false

/-- Outcome.is_non_failure mirrors `Outcome::is_non_failure`. -/
def Outcome.is_non_failure (o : Outcome) : Bool :=
  !o.is_failure

/-- Outcome.is_action mirrors `Outcome::is_action`. -/
def Outcome.is_action : Outcome → Bool
  | Outcome.action _ => true
  | _ => false

/-- outcomeOfBool mirrors `impl From<bool> for Outcome`. -/
def outcomeOfBool (b : Bool) : Outcome :=
  if b then Outcome.success else Outcome.failure

/-- RefIdx is the typed reference discriminant of
src/tree/id_space.rs (variants `Action`, `Node`, `Cond`; the runtime
and tree modules pattern-match a `Custom` variant that does not exist
in the `RefIdx` the id space declares, so it is not part of the
embedding). -/
inductive RefIdx where
  | action (i : Nat)
  | node (i : Nat)
  | cond (i : Nat)
deriving DecidableEq

/-- RefMode distinguishes plain references from `?`-suffixed query-mode
references (src/tree/script/runtime.rs). -/
inductive RefMode where
  | query
  | inherit
deriving DecidableEq

/-- Dispatch is the combinator kind of a `Node::Dispatch`
(src/tree/script/runtime.rs). -/
inductive Dispatch where
  | sequence
  | selection
  | none
  | visit
deriving DecidableEq

/-- QueryMode is the iteration mode of a `Node::Query`
(src/tree/script/runtime.rs). -/
inductive QueryMode where
  | sequence
  | selection
  | first
  | last
  | visit
deriving DecidableEq

/-- ProtoValue is an unreified argument (src/tree/script/runtime.rs). -/
inductive ProtoValue where
  | global (i : Nat)
  | lexical (i : Nat)
  | value (v : Value)
  | list (ps : List ProtoValue)

/-- Pattern is a destructuring template (src/tree/script/runtime.rs). -/
inductive Pattern where
  | exact (v : Value)
  | bind
  | lexical (i : Nat)
  | global (i : Nat)
  | list (ps : List Pattern)
  | ignore

/-- Node is the compiled IR tree (src/tree/script/runtime.rs,
`enum Node<Ext>`; `matchNode` embeds the `Match` variant). -/
inductive Node where
  | success
  | failure
  | dispatch (d : Dispatch) (branches : List Node)
  | ref (r : RefIdx) (mode : RefMode) (args : List ProtoValue)
  | query (p : Pattern) (q : Nat) (args : List ProtoValue)
      (m : QueryMode) (branches : List Node)
  | matchNode (values : List ProtoValue) (patterns : List Pattern)
      (branches : List Node)
  | random (seed : Nat) (ctxSeeds : List Nat) (branches : List Node)
      (checkAny : Bool)
  | cond (branches : List (Node × Node)) (elseBranch : Option Node)

/-- Node.sequence mirrors `Node::sequence`. -/
def Node.sequence (nodes : List Node) : Node :=
  Node.dispatch Dispatch.sequence nodes

/-- NodeRoot is a compiled node declaration
(src/tree/script/runtime.rs). -/
structure NodeRoot where
  index : Option Nat
  node : Node
  lexicals : Nat

/-- NodeRoot.default mirrors `impl Default for NodeRoot`. -/
def NodeRoot.default : NodeRoot :=
  ⟨none, Node.failure, 0⟩

/-- ActionRoot is a compiled action declaration
(src/tree/script/runtime.rs). -/
structure ActionRoot where
  index : Option Nat
  effects : List (Nat × List ProtoValue)
  inherit : List Node
  conditions : List Node
  discovery : List Node
  lexicals : Nat

/-- ActionRoot.default mirrors `impl Default for ActionRoot`. -/
def ActionRoot.default : ActionRoot :=
  ⟨none, [], [], [], [], 0⟩

/-- Kind is the identifier kind enumeration generated in
src/tree/id_space.rs, in the field order of the `generate!`
invocation. -/
inductive Kind where
  | global
  | effect
  | cond
  | query
  | action
  | node
deriving DecidableEq

/-- ArityError mirrors `ArityError` of src/tree.rs. -/
structure ArityError where
  expected : Nat
  given : Nat
deriving DecidableEq

/-- KindError mirrors `KindError` of src/tree.rs; the `Kinds` flag set
is embedded as a list of kinds. -/
structure KindError where
  expected : List Kind
  given : Kind
deriving DecidableEq

/-- IdError mirrors `IdError` of src/tree/id_space.rs. -/
inductive IdError where
  | unknown
  | kind (e : KindError)
  | arity (e : ArityError)
deriving DecidableEq

/-- IdSpace holds the six identifier maps of src/tree/id_space.rs, in
the declared field order. Each `IdMap` is embedded as an association
list in insertion order (the dense index of an entry is its position),
pairing the name with the registered arity and the stored payload.
Host handlers are embedded with the view already applied. -/
structure IdSpace where
  globals : List (String × Nat × Value)
  effects : List (String × Nat × (List Value → Option Nat))
  conditions : List (String × Nat × (List Value → Bool))
  queries : List (String × Nat × (List Value → List Value))
  actionRoots : List (String × Nat × ActionRoot)
  nodeRoots : List (String × Nat × NodeRoot)

/-- IdSpace.empty is the `Default` id space. -/
def IdSpace.empty : IdSpace :=
  ⟨[], [], [], [], [], []⟩

/-- findName mirrors `IdMap::find`: the dense index of the entry
registered under a name. -/
def findName {α : Type} (entries : List (String × Nat × α))
    (name : String) : Option Nat :=
  entries.findIdx? (fun e => e.1 == name)

/-- getPayload mirrors `IdMap::node`: the payload stored at a dense
index, with a default standing in for the out-of-bounds panic (indices
produced by resolution are always in range). -/
def getPayload {α : Type} (entries : List (String × Nat × α))
    (i : Nat) (dflt : α) : α :=
  match entries.get? i with
  | some e => e.2.2
  | none => dflt

/-- getArity mirrors `IdMap::data` for the stored arity. -/
def getArity {α : Type} (entries : List (String × Nat × α))
    (i : Nat) : Nat :=
  match entries.get? i with
  | some e => e.2.1
  | none => 0

/-- IdSpace.kindOf mirrors `IdSpace::kind`: the maps are probed in
declared field order. -/
def IdSpace.kindOf (ids : IdSpace) (name : String) : Option Kind :=
  if (findName ids.globals name).isSome then some Kind.global
  else if (findName ids.effects name).isSome then some Kind.effect
  else if (findName ids.conditions name).isSome then some Kind.cond
  else if (findName ids.queries name).isSome then some Kind.query
  else if (findName ids.actionRoots name).isSome then some Kind.action
  else if (findName ids.nodeRoots name).isSome then some Kind.node
  else none

/-- resolveIn mirrors the generic `IdSpace::resolve` for one map:
arity-checked index lookup, falling back to kind or unknown errors. -/
def resolveIn {α : Type} (ids : IdSpace)
    (entries : List (String × Nat × α)) (kind : Kind)
    (name : String) (given : Nat) : Except IdError Nat :=
  match findName entries name with
  | some index =>
    let expected := getArity entries index
    if given == expected then Except.ok index
    else Except.error (IdError.arity ⟨expected, given⟩)
  | none =>
    match ids.kindOf name with
    | some k => Except.error (IdError.kind ⟨[kind], k⟩)
    | none => Except.error IdError.unknown

/-- IdSpace.resolveRef mirrors `IdSpace::resolve_ref`. -/
def IdSpace.resolveRef (ids : IdSpace) (name : String) (given : Nat) :
    Except IdError RefIdx :=
  match ids.kindOf name with
  | some Kind.action =>
    (resolveIn ids ids.actionRoots Kind.action name given).map RefIdx.action
  | some Kind.node =>
    (resolveIn ids ids.nodeRoots Kind.node name given).map RefIdx.node
  | some Kind.cond =>
    (resolveIn ids ids.conditions Kind.cond name given).map RefIdx.cond
  | some other =>
    Except.error (IdError.kind ⟨[Kind.action, Kind.node, Kind.cond], other⟩)
  | none => Except.error IdError.unknown

/-- IdSpace.getAction fetches an action root by index. -/
def IdSpace.getAction (ids : IdSpace) (i : Nat) : ActionRoot :=
  getPayload ids.actionRoots i ActionRoot.default

/-- IdSpace.getNode fetches a node root by index. -/
def IdSpace.getNode (ids : IdSpace) (i : Nat) : NodeRoot :=
  getPayload ids.nodeRoots i NodeRoot.default

/-- IdSpace.getCond fetches a condition handler by index (false stands
in for the out-of-bounds panic). -/
def IdSpace.getCond (ids : IdSpace) (i : Nat) : List Value → Bool :=
  getPayload ids.conditions i (fun _ => false)

/-- IdSpace.getEffect fetches an effect handler by index. -/
def IdSpace.getEffect (ids : IdSpace) (i : Nat) : List Value → Option Nat :=
  getPayload ids.effects i (fun _ => none)

/-- IdSpace.getQuery fetches a query handler by index. -/
def IdSpace.getQuery (ids : IdSpace) (i : Nat) : List Value → List Value :=
  getPayload ids.queries i (fun _ => [])

/-- IdSpace.getGlobal fetches a global's value by index. -/
def IdSpace.getGlobal (ids : IdSpace) (i : Nat) : Value :=
  getPayload ids.globals i (Value.int 0)

/-- Env bundles the compiled tree's identifier space with the runtime
shuffle performed by the external `fastrand` crate
(`Rng::with_seed(seed)` followed by `Rng::shuffle`). -/
structure Env where
  ids : IdSpace
  shuffle : Nat → List Node → List Node

/-- Cx is the evaluation context shape (src/tree/context.rs):
`EvalContext` carries its activeness flag, `DiscoveryContext` carries
its optional action-index filter and is always inactive. -/
inductive Cx where
  | eval (isActive : Bool)
  | discovery (filter : Option Nat)

/-- Cx.is_active mirrors `Context::is_active` for both context
shapes. -/
def Cx.is_active : Cx → Bool
  | Cx.eval b => b
  | Cx.discovery _ => false

/-- Cx.to_inactive mirrors `Context::to_inactive`: an eval context
drops activeness, a discovery context clones itself. -/
def Cx.to_inactive : Cx → Cx
  | Cx.eval _ => Cx.eval false
  | Cx.discovery f => Cx.discovery f

/-- Cx.to_inactive_if_active mirrors the provided
`Context::to_inactive_if_active`. -/
def Cx.to_inactive_if_active (cx : Cx) : Cx :=
  if cx.is_active then cx.to_inactive else cx

/-- CacheLine mirrors `CacheLine` of src/tree/context.rs. -/
structure CacheLine where
  index : RefIdx
  is_active : Bool
  arguments : List Value
  outcome : Outcome

/-- LRU_LEN is the cache capacity constant of src/tree/context.rs. -/
def LRU_LEN : Nat := 4096

/-- St is the shared mutable state threaded through an evaluation: the
LRU cache (interior-mutable and shared by all context clones), the
current discovery context's collection (`emitted`), and an
instrumentation log of effect-handler invocations (`calls`), recording
the effect index and the reified arguments of each invocation. -/
structure St where
  cache : List CacheLine
  emitted : List Action
  calls : List (Nat × List Value)

/-- St.initial is the state at the start of a top-level call: a fresh
default cache and empty collections. -/
def St.initial : St :=
  ⟨[], [], []⟩

/-- cacheFind mirrors `ContextCache::find` (`Iterator::position`): the
position of the first line matching the reference index, activeness
and arguments, comparing arguments with the derived `PartialEq` of
`Value`. -/
def cacheFind : List CacheLine → RefIdx → List Value → Bool → Option Nat
  | [], _, _, _ => none
  | cl :: rest, index, arguments, is_active =>
    if cl.index == index && cl.is_active == is_active
        && valueEqList cl.arguments arguments then
      some 0
    else
      (cacheFind rest index arguments is_active).map (· + 1)

/-- cacheInsert mirrors `ContextCache::insert`: push to the front and
truncate to the capacity. -/
def cacheInsert (lru : List CacheLine) (cl : CacheLine) :
    List CacheLine :=
  (cl :: lru).take LRU_LEN

/-- cacheReplaceOrInsert mirrors `ContextCache::replace_or_insert`. -/
def cacheReplaceOrInsert (lru : List CacheLine) (cl : CacheLine) :
    List CacheLine :=
  match cacheFind lru cl.index cl.arguments cl.is_active with
  | some index => cl :: lru.eraseIdx index
  | none => cacheInsert lru cl

/-- cacheGet mirrors `ContextCache::get`. On a hit the line is removed,
its outcome read, and the line re-inserted at the front. On a miss a
placeholder line with `Outcome::Failure` is inserted, the outcome
computation runs (it may itself use the cache, so it receives and
returns the whole threaded state), and the line is replaced with the
real outcome and promoted. -/
def cacheGet (index : RefIdx) (arguments : List Value)
    (is_active : Bool) (calcOutcome : St → Outcome × St) (st : St) :
    Outcome × St :=
  match cacheFind st.cache index arguments is_active with
  | some i =>
    match st.cache.get? i with
    | some cl =>
      (cl.outcome,
        { st with cache := cacheInsert (st.cache.eraseIdx i) cl })
    | none => (Outcome.failure, st)
  | none =>
    let cl : CacheLine := ⟨index, is_active, arguments, Outcome.failure⟩
    let st1 := { st with cache := cacheInsert st.cache cl }
    let res := calcOutcome st1
    (res.1,
      { res.2 with cache :=
          cacheReplaceOrInsert res.2.cache { cl with outcome := res.1 } })

/-- ctxAction mirrors `Context::action` for both context shapes
(src/tree/context.rs): an active eval context wraps the action, an
inactive one coerces it to failure, and a discovery context appends it
to its collection when the filter matches, yielding success. -/
def ctxAction (cx : Cx) (a : Action) (st : St) : Outcome × St :=
  match cx with
  | Cx.eval true => (Outcome.action a, st)
  | Cx.eval false => (Outcome.failure, st)
  | Cx.discovery filter =>
    if (match filter with
        | none => true
        | some index => index == a.index) then
      (Outcome.success, { st with emitted := st.emitted ++ [a] })
    else
      (Outcome.failure, st)

/-- Lex is the lexical slot vector (`SmallVec` of values); slot `i` is
the element at position `i`, push appends, truncation takes a
prefix. -/
abbrev Lex := List Value

/-- lexGet mirrors indexing `lex[i]` (a default stands in for the
out-of-bounds panic; compiled slot indices are always in range). -/
def lexGet (lex : Lex) (i : Nat) : Value :=
  match lex.get? i with
  | some v => v
  | none => Value.int 0

mutual

/-- ProtoValue.reify mirrors `ProtoValue::reify`; globals have the view
already applied, and the lexical vector is only read. -/
def ProtoValue.reify (env : Env) (lex : Lex) : ProtoValue → Value
  | ProtoValue.global index => env.ids.getGlobal index
  | ProtoValue.lexical index => lexGet lex index
  | ProtoValue.value v => v
  | ProtoValue.list values => Value.list (reifyValues env lex values)

/-- reifyValues mirrors the `reify_values` helper. -/
def reifyValues (env : Env) (lex : Lex) : List ProtoValue → List Value
  | [] => []
  | p :: ps => ProtoValue.reify env lex p :: reifyValues env lex ps

end

mutual

/-- Pattern.try_apply mirrors `Pattern::try_apply`: it returns whether
the value matched together with the lexical vector, which a `Bind`
extends by pushing the matched value. -/
def Pattern.try_apply (env : Env) (lex : Lex) :
    Pattern → Value → Bool × Lex
  | Pattern.ignore, _ => (true, lex)
  | Pattern.bind, value => (true, lex ++ [value])
  | Pattern.exact exact, value => (valueEq value exact, lex)
  | Pattern.lexical index, value => (valueEq value (lexGet lex index), lex)
  | Pattern.global index, value =>
    (valueEq value (env.ids.getGlobal index), lex)
  | Pattern.list patterns, value =>
    match value with
    | Value.list values =>
      if patterns.length == values.length then
        tryApplyZip env lex patterns values
      else
        (false, lex)
    | _ => (false, lex)

/-- tryApplyZip mirrors `patterns.iter().zip(values.iter()).all(...)`:
pairs are applied left to right with short-circuiting, the iteration
stopping at the shorter side; lexical pushes of earlier pairs persist
even when a later pair fails. -/
def tryApplyZip (env : Env) (lex : Lex) :
    List Pattern → List Value → Bool × Lex
  | [], _ => (true, lex)
  | _ :: _, [] => (true, lex)
  | p :: ps, v :: vs =>
    match Pattern.try_apply env lex p v with
    | (true, lex1) => tryApplyZip env lex1 ps vs
    | (false, lex1) => (false, lex1)

end

/-- seedWord is modelled from the spec: the seed accumulation of
`Node::Random` adds `globals[ctx_seeds[i]](view).to_u64()` with `u64`
wrapping; the `SeedIdx` type and the conversion are absent from the
source snapshot (src/tree/script/runtime.rs refers to a `SeedIdx` that
src/tree/id_space.rs does not declare), so seed references are taken to
be globals and `to_u64` maps an integer value to its value modulo
`2 ^ 64` and anything else to zero. -/
def seedWord : Value → Nat
  | Value.int i => (i % (2 ^ 64 : Int)).toNat
  | _ => 0

/-- effSeed is the effective seed computation of the `Node::Random`
arm: the literal seed plus the context seeds with wrapping `u64`
addition. -/
def effSeed (env : Env) (seed : Nat) (ctxSeeds : List Nat) : Nat :=
  ctxSeeds.foldl
    (fun s i => (s + seedWord (env.ids.getGlobal i)) % (2 ^ 64)) seed

/-- Ev is the shape of the node evaluator threaded through the loop
helpers: context, node, lexical vector and state in; outcome, lexical
vector and state out. -/
abbrev Ev := Cx → Node → Lex → St → Outcome × Lex × St

/-- seqLoop is the `Dispatch::Sequence` arm of
`Dispatch::eval_branches`: stop at the first non-success. -/
def seqLoop (ev : Ev) (cx : Cx) : List Node → Lex → St →
    Outcome × Lex × St
  | [], lex, st => (Outcome.success, lex, st)
  | node :: rest, lex, st =>
    match ev cx node lex st with
    | (result, lex1, st1) =>
      if result.is_non_success then (result, lex1, st1)
      else seqLoop ev cx rest lex1 st1

/-- selLoop is the `Dispatch::Selection` arm: stop at the first
non-failure. -/
def selLoop (ev : Ev) (cx : Cx) : List Node → Lex → St →
    Outcome × Lex × St
  | [], lex, st => (Outcome.failure, lex, st)
  | node :: rest, lex, st =>
    match ev cx node lex st with
    | (result, lex1, st1) =>
      if result.is_non_failure then (result, lex1, st1)
      else selLoop ev cx rest lex1 st1

/-- noneLoop is the `Dispatch::None` arm: any non-failure branch makes
the dispatch fail, otherwise it succeeds. -/
def noneLoop (ev : Ev) (cx : Cx) : List Node → Lex → St →
    Outcome × Lex × St
  | [], lex, st => (Outcome.success, lex, st)
  | node :: rest, lex, st =>
    match ev cx node lex st with
    | (result, lex1, st1) =>
      if result.is_non_failure then (Outcome.failure, lex1, st1)
      else noneLoop ev cx rest lex1 st1

/-- visitLoop is the `Dispatch::Visit` arm: evaluate all branches,
ignore their outcomes, succeed. -/
def visitLoop (ev : Ev) (cx : Cx) : List Node → Lex → St →
    Outcome × Lex × St
  | [], lex, st => (Outcome.success, lex, st)
  | node :: rest, lex, st =>
    match ev cx node lex st with
    | (_, lex1, st1) => visitLoop ev cx rest lex1 st1

/-- dispatchBranches mirrors `Dispatch::eval_branches`. -/
def dispatchBranches (ev : Ev) (cx : Cx) (d : Dispatch)
    (nodes : List Node) (lex : Lex) (st : St) : Outcome × Lex × St :=
  match d with
  | Dispatch.sequence => seqLoop ev cx nodes lex st
  | Dispatch.selection => selLoop ev cx nodes lex st
  | Dispatch.none => noneLoop ev cx nodes lex st
  | Dispatch.visit => visitLoop ev cx nodes lex st

/-- evalSequence mirrors the `eval_sequence` helper. -/
def evalSequence (ev : Ev) (cx : Cx) (lex : Lex) (nodes : List Node)
    (st : St) : Outcome × Lex × St :=
  dispatchBranches ev cx Dispatch.sequence nodes lex st

/-- qseqLoop is the `QueryMode::Sequence` consumer loop: per yielded
value the scope is truncated back, the pattern applied, and the body
run as a sequence; the first non-success body outcome is returned,
exhaustion yields success. -/
def qseqLoop (ev : Ev) (cx : Cx) (env : Env) (lexLen : Nat)
    (pattern : Pattern) (branches : List Node) :
    List Value → Lex → St → Outcome × Lex × St
  | [], lex, st => (Outcome.success, lex, st)
  | value :: values, lex, st =>
    let lex0 := lex.take lexLen
    match Pattern.try_apply env lex0 pattern value with
    | (false, lex1) => qseqLoop ev cx env lexLen pattern branches values lex1 st
    | (true, lex1) =>
      match evalSequence ev cx lex1 branches st with
      | (result, lex2, st1) =>
        if result.is_non_success then (result, lex2, st1)
        else qseqLoop ev cx env lexLen pattern branches values lex2 st1

/-- qselLoop is the `QueryMode::Selection` consumer loop: mirror of the
sequence loop with non-failure short-circuit and failure on
exhaustion. -/
def qselLoop (ev : Ev) (cx : Cx) (env : Env) (lexLen : Nat)
    (pattern : Pattern) (branches : List Node) :
    List Value → Lex → St → Outcome × Lex × St
  | [], lex, st => (Outcome.failure, lex, st)
  | value :: values, lex, st =>
    let lex0 := lex.take lexLen
    match Pattern.try_apply env lex0 pattern value with
    | (false, lex1) => qselLoop ev cx env lexLen pattern branches values lex1 st
    | (true, lex1) =>
      match evalSequence ev cx lex1 branches st with
      | (result, lex2, st1) =>
        if result.is_non_failure then (result, lex2, st1)
        else qselLoop ev cx env lexLen pattern branches values lex2 st1

/-- qfirstLoop is the `QueryMode::First` consumer loop: the first
matching value decides, no match yields failure. -/
def qfirstLoop (ev : Ev) (cx : Cx) (env : Env) (lexLen : Nat)
    (pattern : Pattern) (branches : List Node) :
    List Value → Lex → St → Outcome × Lex × St
  | [], lex, st => (Outcome.failure, lex, st)
  | value :: values, lex, st =>
    let lex0 := lex.take lexLen
    match Pattern.try_apply env lex0 pattern value with
    | (false, lex1) => qfirstLoop ev cx env lexLen pattern branches values lex1 st
    | (true, lex1) => evalSequence ev cx lex1 branches st

/-- qlastLoop is the `QueryMode::Last` consumer loop: the last matching
value decides, starting from failure. -/
def qlastLoop (ev : Ev) (cx : Cx) (env : Env) (lexLen : Nat)
    (pattern : Pattern) (branches : List Node) (last : Outcome) :
    List Value → Lex → St → Outcome × Lex × St
  | [], lex, st => (last, lex, st)
  | value :: values, lex, st =>
    let lex0 := lex.take lexLen
    match Pattern.try_apply env lex0 pattern value with
    | (false, lex1) =>
      qlastLoop ev cx env lexLen pattern branches last values lex1 st
    | (true, lex1) =>
      match evalSequence ev cx lex1 branches st with
      | (result, lex2, st1) =>
        qlastLoop ev cx env lexLen pattern branches result values lex2 st1

/-- qvisitLoop is the `QueryMode::Visit` consumer loop: run the body
for every matching value, ignore outcomes, succeed. -/
def qvisitLoop (ev : Ev) (cx : Cx) (env : Env) (lexLen : Nat)
    (pattern : Pattern) (branches : List Node) :
    List Value → Lex → St → Outcome × Lex × St
  | [], lex, st => (Outcome.success, lex, st)
  | value :: values, lex, st =>
    let lex0 := lex.take lexLen
    match Pattern.try_apply env lex0 pattern value with
    | (false, lex1) => qvisitLoop ev cx env lexLen pattern branches values lex1 st
    | (true, lex1) =>
      match evalSequence ev cx lex1 branches st with
      | (_, lex2, st1) => qvisitLoop ev cx env lexLen pattern branches values lex2 st1

/-- QueryMode.eval_query mirrors `QueryMode::eval_query`: the lexical
length is snapshotted, the host query handler yields its value stream,
the mode's consumer loop runs, and the scope guard truncates the
lexical vector back on exit. -/
def QueryMode.eval_query (mode : QueryMode) (ev : Ev) (cx : Cx)
    (env : Env) (lex : Lex) (index : Nat) (arguments : List Value)
    (pattern : Pattern) (branches : List Node) (st : St) :
    Outcome × Lex × St :=
  let lexLen := lex.length
  let values := env.ids.getQuery index arguments
  let res :=
    match mode with
    | QueryMode.sequence =>
      qseqLoop ev cx env lexLen pattern branches values lex st
    | QueryMode.selection =>
      qselLoop ev cx env lexLen pattern branches values lex st
    | QueryMode.first =>
      qfirstLoop ev cx env lexLen pattern branches values lex st
    | QueryMode.last =>
      qlastLoop ev cx env lexLen pattern branches Outcome.failure values lex st
    | QueryMode.visit =>
      qvisitLoop ev cx env lexLen pattern branches values lex st
  (res.1, res.2.1.take lexLen, res.2.2)

/-- checkAnyLoop is the inner `for node in branches` loop of the
`Node::Random` arm under `check_any`: scan the remaining branches in
the current context and report whether one evaluated to success. -/
def checkAnyLoop (ev : Ev) (cx : Cx) : List Node → Lex → St →
    Bool × Lex × St
  | [], lex, st => (false, lex, st)
  | node :: rest, lex, st =>
    match ev cx node lex st with
    | (result, lex1, st1) =>
      if result.is_success then (true, lex1, st1)
      else checkAnyLoop ev cx rest lex1 st1

/-- randomLoop is the `while let Some(node) = branches.pop()` loop of
the `Node::Random` arm. The source pops from the back of the shuffled
vector, so the loop runs on the reversed shuffled list; at each step
the not-yet-popped part of the vector is `rest.reverse`, which is what
the `check_any` scan iterates in forward order. A success is returned
directly; an action triggers the `check_any` scan, which turns the
outcome into a plain success when some remaining branch succeeds and
otherwise leaves the action; exhaustion yields failure. -/
def randomLoop (ev : Ev) (cx : Cx) (checkAny : Bool) :
    List Node → Lex → St → Outcome × Lex × St
  | [], lex, st => (Outcome.failure, lex, st)
  | node :: rest, lex, st =>
    match ev cx node lex st with
    | (result, lex1, st1) =>
      if result.is_success then (result, lex1, st1)
      else if result.is_action then
        if checkAny then
          match checkAnyLoop ev cx rest.reverse lex1 st1 with
          | (true, lex2, st2) => (Outcome.success, lex2, st2)
          | (false, lex2, st2) => (result, lex2, st2)
        else (result, lex1, st1)
      else randomLoop ev cx checkAny rest lex1 st1

/-- condLoop is the `'branches` loop of the `Node::Cond` arm: each
branch condition is evaluated in the current context; success selects
the branch body, failure continues, and any other outcome is returned
as is. When no branch is taken the else branch runs if present,
otherwise the result is failure. -/
def condLoop (ev : Ev) (cx : Cx) (elseBranch : Option Node) :
    List (Node × Node) → Lex → St → Outcome × Lex × St
  | [], lex, st =>
    match elseBranch with
    | some node => ev cx node lex st
    | none => (Outcome.failure, lex, st)
  | (branchCond, branchBody) :: rest, lex, st =>
    match ev cx branchCond lex st with
    | (Outcome.success, lex1, st1) => ev cx branchBody lex1 st1
    | (Outcome.failure, lex1, st1) =>
      condLoop ev cx elseBranch rest lex1 st1
    | (other, lex1, st1) => (other, lex1, st1)

/-- effectCall names the instrumentation record for one effect-handler
invocation: the effect index together with the reified arguments it
receives. -/
def effectCall (env : Env) (lex : Lex) (e : Nat × List ProtoValue) :
    Nat × List Value :=
  (e.1, reifyValues env lex e.2)

/-- runEffects is the effect-materialization loop of
`ActionRoot::eval`: for each `(effect index, proto arguments)` pair in
declaration order the arguments are reified and the host handler
invoked (logged in `calls`); a `None` result aborts with `none`,
otherwise the produced effects are collected in order. Reification
only reads the lexical vector, so it is passed unchanged. -/
def runEffects (env : Env) (lex : Lex) :
    List (Nat × List ProtoValue) → St → Option (List Nat) × St
  | [], st => (some [], st)
  | e :: rest, st =>
    let arguments := reifyValues env lex e.2
    let st1 := { st with calls := st.calls ++ [(e.1, arguments)] }
    match env.ids.getEffect e.1 arguments with
    | some effect =>
      match runEffects env lex rest st1 with
      | (some effects, st2) => (some (effect :: effects), st2)
      | (none, st2) => (none, st2)
    | none => (none, st1)

/-- inheritLoop is the `for node in self.inherit.iter()` loop of
`ActionRoot::eval`: each inherit node is evaluated (under the nested
discovery context the caller sets up) and a failure outcome aborts
(the flag is true when a failure occurred). -/
def inheritLoop (ev : Ev) (cx : Cx) : List Node → Lex → St →
    Bool × Lex × St
  | [], lex, st => (false, lex, st)
  | node :: rest, lex, st =>
    match ev cx node lex st with
    | (result, lex1, st1) =>
      if result.is_failure then (true, lex1, st1)
      else inheritLoop ev cx rest lex1 st1

/-- ActionRoot.eval mirrors `ActionRoot::eval`: the lexical frame is
seeded with the arguments; the conditions are evaluated as a sequence
in the inactive version of the context (`conditions_ok`) and any
non-success makes the whole evaluation fail; the effects are
materialized left to right with a `None` aborting; the inherit nodes
run under a nested discovery context with a fresh local collection and
no filter, a failure aborting, and the collected actions' effects are
appended; finally the constructed action (with the original argument
snapshot) is handed to the context. -/
def ActionRoot.eval (ev : Ev) (env : Env) (cx : Cx) (root : ActionRoot)
    (arguments : List Value) (st : St) : Outcome × St :=
  let lex : Lex := arguments
  match evalSequence ev cx.to_inactive_if_active lex root.conditions st with
  | (condOutcome, lex1, st1) =>
    if !condOutcome.is_success then (Outcome.failure, st1)
    else
      match runEffects env lex1 root.effects st1 with
      | (none, st2) => (Outcome.failure, st2)
      | (some effects, st2) =>
        let stIn := { st2 with emitted := [] }
        match inheritLoop ev (Cx.discovery none) root.inherit lex1 stIn with
        | (true, _, st3) =>
          (Outcome.failure, { st3 with emitted := st2.emitted })
        | (false, _, st3) =>
          let inherited := st3.emitted
          let st4 := { st3 with emitted := st2.emitted }
          ctxAction cx
            ⟨root.index.getD 0, arguments,
              effects ++ (inherited.map Action.effects).flatten⟩
            st4

/-- NodeRoot.eval mirrors `NodeRoot::eval`: a fresh lexical frame is
seeded with the arguments and the body evaluated. -/
def NodeRoot.eval (ev : Ev) (cx : Cx) (root : NodeRoot)
    (arguments : List Value) (st : St) : Outcome × St :=
  let lex : Lex := arguments
  match ev cx root.node lex st with
  | (result, _, st1) => (result, st1)

/-- RefMode.apply mirrors `RefMode::apply`: query mode forces
inactivity, inherit mode keeps the current context. -/
def RefMode.apply (mode : RefMode) (cx : Cx) : Cx :=
  match mode with
  | RefMode.query => cx.to_inactive_if_active
  | RefMode.inherit => cx

/-- RefIdx.eval mirrors `RefIdx::eval`: the mode is applied to the
context, and the outcome is fetched through the cache keyed by the
reference, the arguments and the (post-mode) activeness; on a miss the
computation dispatches on the reference kind. The `Custom` match arm of
the source refers to a variant that the id space does not declare and
is not part of the embedding. -/
def RefIdx.eval (ev : Ev) (env : Env) (cx : Cx) (r : RefIdx)
    (mode : RefMode) (arguments : List Value) (st : St) :
    Outcome × St :=
  let cx1 := mode.apply cx
  cacheGet r arguments cx1.is_active
    (fun st1 =>
      match r with
      | RefIdx.action index =>
        ActionRoot.eval ev env cx1 (env.ids.getAction index) arguments st1
      | RefIdx.cond index =>
        (outcomeOfBool (env.ids.getCond index arguments), st1)
      | RefIdx.node index =>
        NodeRoot.eval ev cx1 (env.ids.getNode index) arguments st1)
    st

/-- Node.eval mirrors `Node::eval`, with a fuel parameter bounding the
recursion through references (the source can recurse without bound for
distinct cache keys); exhausted fuel yields failure. All loop helpers
receive the evaluator one fuel step down. -/
def Node.eval (env : Env) : Nat → Cx → Node → Lex → St →
    Outcome × Lex × St
  | 0, _, _, lex, st => (Outcome.failure, lex, st)
  | fuel + 1, cx, node, lex, st =>
    let ev : Ev := Node.eval env fuel
    match node with
    | Node.failure => (Outcome.failure, lex, st)
    | Node.success => (Outcome.success, lex, st)
    | Node.dispatch d branches => dispatchBranches ev cx d branches lex st
    | Node.ref refKind mode arguments =>
      let arguments := reifyValues env lex arguments
      match RefIdx.eval ev env cx refKind mode arguments st with
      | (result, st1) => (result, lex, st1)
    | Node.matchNode values patterns branches =>
      let values := reifyValues env lex values
      let lexLen := lex.length
      match tryApplyZip env lex patterns values with
      | (true, lex1) =>
        match evalSequence ev cx lex1 branches st with
        | (result, lex2, st1) => (result, lex2.take lexLen, st1)
      | (false, lex1) => (Outcome.failure, lex1.take lexLen, st)
    | Node.query pattern index arguments mode branches =>
      let arguments := reifyValues env lex arguments
      mode.eval_query ev cx env lex index arguments pattern branches st
    | Node.random seed ctxSeeds branches checkAny =>
      let seed1 := effSeed env seed ctxSeeds
      randomLoop ev cx checkAny (env.shuffle seed1 branches).reverse lex st
    | Node.cond branches elseBranch =>
      condLoop ev cx elseBranch branches lex st

/-- evalNodeTop mirrors `BehaviorTree::eval_node`: resolve the root
name to a typed reference and dispatch (without the cache, exactly as
the source calls the roots and handlers directly). The `Custom` arm of
the source again refers to the variant missing from the id space. -/
def evalNodeTop (env : Env) (fuel : Nat) (cx : Cx) (node : String)
    (arguments : List Value) : Except IdError Outcome :=
  match env.ids.resolveRef node arguments.length with
  | Except.error e => Except.error e
  | Except.ok (RefIdx.action index) =>
    Except.ok (ActionRoot.eval (Node.eval env fuel) env cx
      (env.ids.getAction index) arguments St.initial).1
  | Except.ok (RefIdx.node index) =>
    Except.ok (NodeRoot.eval (Node.eval env fuel) cx
      (env.ids.getNode index) arguments St.initial).1
  | Except.ok (RefIdx.cond index) =>
    Except.ok (outcomeOfBool (env.ids.getCond index arguments))

/-- BehaviorTree.check mirrors `BehaviorTree::check`: the evaluation
context is created and immediately forced inactive, then the named
root is evaluated. -/
def BehaviorTree.check (env : Env) (fuel : Nat) (root : String)
    (arguments : List Value) : Except IdError Outcome :=
  let cx := (Cx.eval true).to_inactive
  evalNodeTop env fuel cx root arguments

/-- reservedChar holds for the reserved punctuation of src/str.rs
(the characters of the pattern string `"$?:;()[]{}"`, written out as a
character list). -/
def reservedChar (c : Char) : Bool :=
  ['$', '?', ':', ';', '(', ')', '[', ']', '\x7b', '\x7d'].contains c

/-- is_symbol mirrors `is_symbol` of src/str.rs: non-empty, not
starting with a dash or an ASCII digit, and containing no whitespace or
reserved punctuation (strings are handled through their character
lists). -/
def is_symbol (value : String) : Bool :=
  !value.data.isEmpty
    && !(match value.data with
        | c :: _ => c == '-' || c.isDigit
        | [] => false)
    && !value.data.any (fun c => c.isWhitespace || reservedChar c)

/-- is_variable mirrors `is_variable` of src/str.rs: a `$` followed by
a symbol. -/
def is_variable (value : String) : Bool :=
  (match value.data with
    | c :: _ => c == '$'
    | [] => false)
    && is_symbol (String.mk value.data.tail)

/-- Kind.describe gives the display string of each kind from the
`generate!` invocation of src/tree/id_space.rs. -/
def Kind.describe : Kind → String
  | Kind.global => "a global"
  | Kind.effect => "an effect"
  | Kind.cond => "a condition"
  | Kind.query => "a query"
  | Kind.action => "an action"
  | Kind.node => "a node"

/-- IdSpace.setGlobal mirrors `IdSpace::set::<GlobalIdx>`: a name
already known under any kind is a conflict reported with that kind,
otherwise the entry is appended (`IdMap::set` on a fresh name). -/
def IdSpace.setGlobal (ids : IdSpace) (name : String) (arity : Nat)
    (value : Value) : Except Kind IdSpace :=
  match ids.kindOf name with
  | some kind => Except.error kind
  | none => Except.ok { ids with globals := ids.globals ++ [(name, arity, value)] }

/-- IdSpace.setEffect mirrors `IdSpace::set::<EffectIdx>`. -/
def IdSpace.setEffect (ids : IdSpace) (name : String) (arity : Nat)
    (handler : List Value → Option Nat) : Except Kind IdSpace :=
  match ids.kindOf name with
  | some kind => Except.error kind
  | none =>
    Except.ok { ids with effects := ids.effects ++ [(name, arity, handler)] }

/-- IdSpace.setCond mirrors `IdSpace::set::<CondIdx>`. -/
def IdSpace.setCond (ids : IdSpace) (name : String) (arity : Nat)
    (handler : List Value → Bool) : Except Kind IdSpace :=
  match ids.kindOf name with
  | some kind => Except.error kind
  | none =>
    Except.ok { ids with conditions := ids.conditions ++ [(name, arity, handler)] }

/-- IdSpace.setQuery mirrors `IdSpace::set::<QueryIdx>`. -/
def IdSpace.setQuery (ids : IdSpace) (name : String) (arity : Nat)
    (handler : List Value → List Value) : Except Kind IdSpace :=
  match ids.kindOf name with
  | some kind => Except.error kind
  | none =>
    Except.ok { ids with queries := ids.queries ++ [(name, arity, handler)] }

/-- RegResult is the observable result of a builder registration call
(src/tree/builder.rs). The source methods return `()` and abort with
`assert!`/`panic!`; the panic is embedded as the `panicked` variant
carrying the panic message. -/
inductive RegResult where
  | ok (b : IdSpace)
  | panicked (msg : String)

/-- BehaviorTreeBuilder.register_global mirrors `register_global`: a
non-variable name fails the `assert!`, a conflicting name hits the
`panic!`, otherwise the global is stored with arity 0 (the handler is
embedded with the view applied, i.e. by its value). -/
def BehaviorTreeBuilder.register_global (b : IdSpace) (id : String)
    (value : Value) : RegResult :=
  if !is_variable id then
    RegResult.panicked ("global id `" ++ id ++ "` is not a valid variable")
  else
    match b.setGlobal id 0 value with
    | Except.ok b1 => RegResult.ok b1
    | Except.error kind =>
      RegResult.panicked
        ("global id `" ++ id ++ "` was already used for " ++ kind.describe)

/-- BehaviorTreeBuilder.register_effect mirrors `register_effect`: a
non-symbol name fails the `assert!`, a conflict hits the `panic!`,
otherwise the handler is stored under the tuple arity (the
`TryFromValues` wrapper is embedded in the stored handler). -/
def BehaviorTreeBuilder.register_effect (b : IdSpace) (id : String)
    (arity : Nat) (handler : List Value → Option Nat) : RegResult :=
  if !is_symbol id then
    RegResult.panicked ("effect id `" ++ id ++ "` is not a valid symbol")
  else
    match b.setEffect id arity handler with
    | Except.ok b1 => RegResult.ok b1
    | Except.error kind =>
      RegResult.panicked
        ("effect id `" ++ id ++ "` was already used for " ++ kind.describe)

/-- BehaviorTreeBuilder.register_query mirrors `register_query`. -/
def BehaviorTreeBuilder.register_query (b : IdSpace) (id : String)
    (arity : Nat) (handler : List Value → List Value) : RegResult :=
  if !is_symbol id then
    RegResult.panicked ("query id `" ++ id ++ "` is not a valid symbol")
  else
    match b.setQuery id arity handler with
    | Except.ok b1 => RegResult.ok b1
    | Except.error kind =>
      RegResult.panicked
        ("query id `" ++ id ++ "` was already used for " ++ kind.describe)

/-- BehaviorTreeBuilder.register_condition mirrors
`register_condition`. -/
def BehaviorTreeBuilder.register_condition (b : IdSpace) (id : String)
    (arity : Nat) (handler : List Value → Bool) : RegResult :=
  if !is_symbol id then
    RegResult.panicked ("condition id `" ++ id ++ "` is not a valid symbol")
  else
    match b.setCond id arity handler with
    | Except.ok b1 => RegResult.ok b1
    | Except.error kind =>
      RegResult.panicked
        ("condition id `" ++ id ++ "` was already used for " ++ kind.describe)

/-- Item is the syntax-tree item of the external `treelang`
collaborator, as consumed by the compiler: a word (symbol or
variable), an integer or float literal, or a bracket group. Source
locations are dropped. -/
inductive Item where
  | word (s : String)
  | int (i : Int)
  | float (f : F32)
  | brackets (items : List Item)

/-- Item.wordStr mirrors `Item::word`/`Item::word_str`. -/
def Item.wordStr : Item → Option String
  | Item.word s => some s
  | _ => none

/-- SNodeKind is the node kind of the parsed script tree: a statement
carries only a signature item list, a directive a signature and an
argument item list separated by `:`. -/
inductive SNodeKind where
  | statement (signature : List Item)
  | directive (signature : List Item) (arguments : List Item)

/-- SNode is a parsed script-tree node with its indented children. -/
inductive SNode where
  | mk (kind : SNodeKind) (children : List SNode)

/-- SNode.kind projects the node kind. -/
def SNode.kind : SNode → SNodeKind
  | SNode.mk k _ => k

/-- SNode.children projects the child nodes. -/
def SNode.children : SNode → List SNode
  | SNode.mk _ c => c

/-- ScriptError is the compile error kind, following the variants the
produce pass raises (src/tree/script/compile.rs and the uses in
src/tree/script/compile/produce.rs, which also raises an
`InvalidSwitchCase` absent from the error enum of the snapshot);
source positions come from external collaborators and are dropped. -/
inductive ScriptError where
  | directiveSignatureArity (keyword : String) (error : ArityError)
  | directiveArgumentArity (keyword : String) (error : ArityError)
  | patternArity (error : ArityError)
  | invalidRefDeclaration
  | invalidRootDeclaration
  | invalidQueryRef
  | invalidEffectRef
  | invalidSeedRef
  | invalidSwitchCase
  | shadowedLexical (name : String)
  | shadowedGlobal (name : String)
  | unboundVariable (name : String)
  | identifier (name : String) (error : IdError)
  | unrecognizedPattern
  | unrecognizedValue
  | unrecognizedNode
  | unrecognizedActionDirective
deriving DecidableEq

/-- matchDirective mirrors `match_directive`: a directive whose first
signature item is the given keyword word, split into the remaining
signature and the arguments. -/
def matchDirective (node : SNode) (keyword : String) :
    Option (List Item × List Item) :=
  match node.kind with
  | SNodeKind.directive signature arguments =>
    match signature with
    | key :: signatureRest =>
      match key.wordStr with
      | some s => if s == keyword then some (signatureRest, arguments) else none
      | none => none
    | [] => none
  | SNodeKind.statement _ => none

/-- tryParseKeywordDirective mirrors `try_parse_keyword_directive`:
a matching directive must have an empty remaining signature. -/
def tryParseKeywordDirective (node : SNode) (keyword : String) :
    Except ScriptError (Option (List Item)) :=
  match matchDirective node keyword with
  | none => Except.ok none
  | some (signature, arguments) =>
    if signature.isEmpty then Except.ok (some arguments)
    else
      Except.error
        (ScriptError.directiveSignatureArity keyword ⟨0, signature.length⟩)

/-- tryParseLabelDirective mirrors `try_parse_label_directive`: a
matching keyword directive must also have no arguments. -/
def tryParseLabelDirective (node : SNode) (keyword : String) :
    Except ScriptError Bool :=
  match tryParseKeywordDirective node keyword with
  | Except.error e => Except.error e
  | Except.ok none => Except.ok false
  | Except.ok (some arguments) =>
    if arguments.isEmpty then Except.ok true
    else
      Except.error
        (ScriptError.directiveArgumentArity keyword ⟨0, arguments.length⟩)

/-- RefClass mirrors the `RefClass` enum of
src/tree/script/compile.rs: a raw or `?`-suffixed (query) reference
name. -/
inductive RefClass where
  | raw (name : String)
  | query (name : String)

/-- matchRef mirrors `match_ref`: the first item must be a word; a
trailing `?` is stripped for a query-class reference; the (stripped)
word must be a symbol. The `?`-suffix test and the strip are expressed
on the character list. -/
def matchRef (items : List Item) : Option (RefClass × List Item) :=
  match items with
  | [] => none
  | first :: rest =>
    match first.wordStr with
    | none => none
    | some word =>
      if word.data.getLast? == some '?' then
        let word := String.mk word.data.dropLast
        if is_symbol word then some (RefClass.query word, rest) else none
      else
        if is_symbol word then some (RefClass.raw word, rest) else none

/-- matchSym mirrors `match_sym`. -/
def matchSym (item : Item) : Option String :=
  match item.wordStr with
  | some word => if is_symbol word then some word else none
  | none => none

/-- matchVar mirrors `match_var`. -/
def matchVar (item : Item) : Option String :=
  match item.wordStr with
  | some word => if is_variable word then some word else none
  | none => none

/-- matchWildcard mirrors `match_wildcard`. -/
def matchWildcard (item : Item) : Bool :=
  match item.wordStr with
  | some s => s == "$"
  | none => false

/-- CEnv is the compiler's lexical environment `Env`
(src/tree/script/compile/produce/env.rs): the borrowed id space, the
stack of declared variable names, and the high-water mark. -/
structure CEnv where
  ids : IdSpace
  vars : List String
  maxVars : Nat

/-- CEnv.new mirrors `Env::new`. -/
def CEnv.new (ids : IdSpace) : CEnv :=
  ⟨ids, [], 0⟩

/-- CEnv.declare mirrors `Env::declare`: an already-declared name is a
shadowed lexical, a global of the same name a shadowed global,
otherwise the next slot is allocated and the high-water mark
updated. -/
def CEnv.declare (env : CEnv) (var : String) :
    Except ScriptError (Nat × CEnv) :=
  if env.vars.contains var then
    Except.error (ScriptError.shadowedLexical var)
  else if (findName env.ids.globals var).isSome then
    Except.error (ScriptError.shadowedGlobal var)
  else
    Except.ok (env.vars.length,
      { env with
          vars := env.vars ++ [var],
          maxVars := max env.maxVars (env.vars.length + 1) })

/-- declareAll folds `Env::declare` over a parameter list (the loop in
`Env::scope`). -/
def declareAll (env : CEnv) : List String → Except ScriptError CEnv
  | [] => Except.ok env
  | var :: rest =>
    match env.declare var with
    | Except.error e => Except.error e
    | Except.ok (_, env1) => declareAll env1 rest

/-- CEnv.scope mirrors `Env::scope`: declare the names, run the body,
truncate the variable stack back to its previous length on exit (an
error aborts the compilation of this declaration, so the truncation on
the abnormal path is unobservable). -/
def CEnv.scope {R : Type} (env : CEnv) (vars : List String)
    (body : CEnv → Except ScriptError (R × CEnv)) :
    Except ScriptError (R × CEnv) :=
  let len := env.vars.length
  match declareAll env vars with
  | Except.error e => Except.error e
  | Except.ok env1 =>
    match body env1 with
    | Except.error e => Except.error e
    | Except.ok (r, env2) =>
      Except.ok (r, { env2 with vars := env2.vars.take len })

/-- CEnv.resolve_pattern mirrors `Env::resolve_pattern`: an
already-bound name compiles to an equality test against that lexical
slot, a global name to an equality test against the global, and an
unbound name is declared and compiles to a binding (the source
`unwrap`s the declaration, whose failure is unreachable there; the
embedding's unreachable branch leaves the environment unchanged). -/
def CEnv.resolve_pattern (env : CEnv) (var : String) : Pattern × CEnv :=
  match env.vars.findIdx? (fun v => v == var) with
  | some index => (Pattern.lexical index, env)
  | none =>
    match resolveIn env.ids env.ids.globals Kind.global var 0 with
    | Except.ok index => (Pattern.global index, env)
    | Except.error _ =>
      match env.declare var with
      | Except.ok (_, env1) => (Pattern.bind, env1)
      | Except.error _ => (Pattern.bind, env)

/-- CEnv.resolve mirrors `Env::resolve`: a bound lexical, a global, or
an unbound-variable error. -/
def CEnv.resolve (env : CEnv) (var : String) :
    Except ScriptError ProtoValue :=
  match env.vars.findIdx? (fun v => v == var) with
  | some index => Except.ok (ProtoValue.lexical index)
  | none =>
    match resolveIn env.ids env.ids.globals Kind.global var 0 with
    | Except.ok index => Except.ok (ProtoValue.global index)
    | Except.error _ => Except.error (ScriptError.unboundVariable var)

/-- convertIdError mirrors `convert_id_error`. -/
def convertIdError (name : String) (error : IdError) : ScriptError :=
  ScriptError.identifier name error

mutual

/-- compileValue mirrors `compile_value`: variables resolve in the
environment, symbols and literals become exact values, brackets become
proto lists, anything else is unrecognized. Value compilation does not
mutate the environment. -/
def compileValue (env : CEnv) (item : Item) :
    Except ScriptError ProtoValue :=
  match matchVar item with
  | some var => env.resolve var
  | none =>
    match matchSym item with
    | some sym => Except.ok (ProtoValue.value (Value.symbol sym))
    | none =>
      match item with
      | Item.int value => Except.ok (ProtoValue.value (Value.int value))
      | Item.float value => Except.ok (ProtoValue.value (Value.float value))
      | Item.brackets values =>
        match compileValues env values with
        | Except.ok compiled => Except.ok (ProtoValue.list compiled)
        | Except.error e => Except.error e
      | _ => Except.error ScriptError.unrecognizedValue

/-- compileValues mirrors `compile_values`. -/
def compileValues (env : CEnv) : List Item →
    Except ScriptError (List ProtoValue)
  | [] => Except.ok []
  | item :: rest =>
    match compileValue env item with
    | Except.error e => Except.error e
    | Except.ok compiled =>
      match compileValues env rest with
      | Except.error e => Except.error e
      | Except.ok compiledRest => Except.ok (compiled :: compiledRest)

end

mutual

/-- compilePatternItem mirrors `compile_pattern_item`: the bare `$`
wildcard, variables via `resolve_pattern` (which may declare a new
binding), symbols and literals as exact patterns, brackets as list
patterns. -/
def compilePatternItem (env : CEnv) (item : Item) :
    Except ScriptError (Pattern × CEnv) :=
  if matchWildcard item then Except.ok (Pattern.ignore, env)
  else
    match matchVar item with
    | some var => Except.ok (env.resolve_pattern var)
    | none =>
      match matchSym item with
      | some sym => Except.ok (Pattern.exact (Value.symbol sym), env)
      | none =>
        match item with
        | Item.int value => Except.ok (Pattern.exact (Value.int value), env)
        | Item.float value =>
          Except.ok (Pattern.exact (Value.float value), env)
        | Item.brackets items =>
          match compilePatternItems env items with
          | Except.ok (compiled, env1) =>
            Except.ok (Pattern.list compiled, env1)
          | Except.error e => Except.error e
        | _ => Except.error ScriptError.unrecognizedPattern

/-- compilePatternItems mirrors `compile_pattern_items`. -/
def compilePatternItems (env : CEnv) : List Item →
    Except ScriptError (List Pattern × CEnv)
  | [] => Except.ok ([], env)
  | item :: rest =>
    match compilePatternItem env item with
    | Except.error e => Except.error e
    | Except.ok (compiled, env1) =>
      match compilePatternItems env1 rest with
      | Except.error e => Except.error e
      | Except.ok (compiledRest, env2) =>
        Except.ok (compiled :: compiledRest, env2)

end

/-- resolveRefSymbol mirrors `resolve_ref_symbol`. -/
def resolveRefSymbol (env : CEnv) (name : String) (arity : Nat) :
    Except ScriptError RefIdx :=
  match env.ids.resolveRef name arity with
  | Except.ok r => Except.ok r
  | Except.error e => Except.error (convertIdError name e)

/-- compileEffect mirrors `compile_effect`: the statement must be a
raw reference, resolved against the effect map, with compiled value
arguments. -/
def compileEffect (env : CEnv) (node : SNode) :
    Except ScriptError (Nat × List ProtoValue) :=
  let parsed :=
    match node.kind with
    | SNodeKind.statement signature =>
      match matchRef signature with
      | some (RefClass.raw name, arguments) => some (name, arguments)
      | _ => none
    | SNodeKind.directive _ _ => none
  match parsed with
  | none => Except.error ScriptError.invalidEffectRef
  | some (name, arguments) =>
    match resolveIn env.ids env.ids.effects Kind.effect name arguments.length with
    | Except.error e => Except.error (convertIdError name e)
    | Except.ok index =>
      match compileValues env arguments with
      | Except.error e => Except.error e
      | Except.ok compiled => Except.ok (index, compiled)

/-- compileEffectList mirrors `compile_effects`. -/
def compileEffectList (env : CEnv) : List SNode →
    Except ScriptError (List (Nat × List ProtoValue))
  | [] => Except.ok []
  | node :: rest =>
    match compileEffect env node with
    | Except.error e => Except.error e
    | Except.ok compiled =>
      match compileEffectList env rest with
      | Except.error e => Except.error e
      | Except.ok compiledRest => Except.ok (compiled :: compiledRest)

/-- dispatchKeywords lists the `(keyword, mode)` attempts of
`try_compile_branch_dispatch` in source order. -/
def dispatchKeywords : List (String × Dispatch) :=
  [("do", Dispatch.sequence), ("select", Dispatch.selection),
   ("none", Dispatch.none), ("visit", Dispatch.visit)]

/-- findLabelDispatch performs the keyword scan of
`try_compile_branch_dispatch` (the recursive branch compilation is
done by the caller). -/
def findLabelDispatch (node : SNode) :
    List (String × Dispatch) → Except ScriptError (Option Dispatch)
  | [] => Except.ok none
  | (keyword, mode) :: rest =>
    match tryParseLabelDirective node keyword with
    | Except.error e => Except.error e
    | Except.ok true => Except.ok (some mode)
    | Except.ok false => findLabelDispatch node rest

/-- queryKeywords lists the `(keyword, mode)` attempts of
`try_compile_branch_query` in source order. -/
def queryKeywords : List (String × QueryMode) :=
  [("for-any", QueryMode.selection), ("for-every", QueryMode.sequence),
   ("with-first", QueryMode.first), ("with-last", QueryMode.last),
   ("visit-every", QueryMode.visit)]

/-- findQueryDirective performs the keyword scan of
`try_compile_branch_query`, keeping the matched keyword for error
reporting. -/
def findQueryDirective (node : SNode) :
    List (String × QueryMode) →
    Option (String × QueryMode × List Item × List Item)
  | [] => none
  | (keyword, mode) :: rest =>
    match matchDirective node keyword with
    | some (signature, arguments) => some (keyword, mode, signature, arguments)
    | none => findQueryDirective node rest

/-- compileSeedRefs performs the seed-reference loop of
`try_compile_branch_random`; each seed must be a symbol resolved at
arity 0. The target index type `SeedIdx` is absent from the id space
of the snapshot; per the spec seed references denote globals, so they
are resolved against the global map. -/
def compileSeedRefs (env : CEnv) : List Item →
    Except ScriptError (List Nat)
  | [] => Except.ok []
  | seed :: rest =>
    match matchSym seed with
    | none => Except.error ScriptError.invalidSeedRef
    | some name =>
      match resolveIn env.ids env.ids.globals Kind.global name 0 with
      | Except.error e => Except.error (convertIdError name e)
      | Except.ok index =>
        match compileSeedRefs env rest with
        | Except.error e => Except.error e
        | Except.ok indices => Except.ok (index :: indices)

mutual

/-- compileBranch mirrors `compile_branch`: the attempts of the
`try_compile_branch_*` family are tried in source order (dispatch,
ref, match, switch, query, random), each inlined here under a comment
naming its source function; no attempt matching is an unrecognized
node. -/
def compileBranch (env : CEnv) (node : SNode) :
    Except ScriptError (Node × CEnv) :=
  match node with
  | SNode.mk kind children =>
    -- try_compile_branch_dispatch
    match findLabelDispatch (SNode.mk kind children) dispatchKeywords with
    | Except.error e => Except.error e
    | Except.ok (some mode) =>
      match compileBranches env children with
      | Except.error e => Except.error e
      | Except.ok (branches, env1) =>
        Except.ok (Node.dispatch mode branches, env1)
    | Except.ok none =>
      -- try_compile_branch_ref
      let refParse :=
        match kind with
        | SNodeKind.statement signature => matchRef signature
        | SNodeKind.directive _ _ => none
      match refParse with
      | some (refName, arguments) =>
        let (name, mode) :=
          match refName with
          | RefClass.query name => (name, RefMode.query)
          | RefClass.raw name => (name, RefMode.inherit)
        match resolveRefSymbol env name arguments.length with
        | Except.error e => Except.error e
        | Except.ok nodeRef =>
          match compileValues env arguments with
          | Except.error e => Except.error e
          | Except.ok compiled =>
            Except.ok (Node.ref nodeRef mode compiled, env)
      | none =>
        -- try_compile_branch_match
        match matchDirective (SNode.mk kind children) "match" with
        | some (patterns, targets) =>
          if targets.length != patterns.length then
            Except.error
              (ScriptError.patternArity ⟨targets.length, patterns.length⟩)
          else
            env.scope [] (fun env => do
              let targets1 ← compileValues env targets
              match compilePatternItems env patterns with
              | Except.error e => Except.error e
              | Except.ok (patterns1, env1) =>
                match compileBranches env1 children with
                | Except.error e => Except.error e
                | Except.ok (branches, env2) =>
                  Except.ok (Node.matchNode targets1 patterns1 branches, env2))
        | none =>
          -- try_compile_branch_switch
          match tryParseKeywordDirective (SNode.mk kind children) "switch" with
          | Except.error e => Except.error e
          | Except.ok (some targets) =>
            match compileSwitchCases env targets children with
            | Except.error e => Except.error e
            | Except.ok (cases, env1) =>
              Except.ok (Node.dispatch Dispatch.selection cases, env1)
          | Except.ok none =>
            -- try_compile_branch_query
            match findQueryDirective (SNode.mk kind children) queryKeywords with
            | some (keyword, mode, signature, arguments) =>
              match signature with
              | [pattern] =>
                match matchRef arguments with
                | some (RefClass.raw name, arguments) =>
                  match resolveIn env.ids env.ids.queries Kind.query
                      name arguments.length with
                  | Except.error e =>
                    Except.error (convertIdError name e)
                  | Except.ok index =>
                    env.scope [] (fun env => do
                      let arguments1 ← compileValues env arguments
                      match compilePatternItem env pattern with
                      | Except.error e => Except.error e
                      | Except.ok (pattern1, env1) =>
                        match compileBranches env1 children with
                        | Except.error e => Except.error e
                        | Except.ok (branches, env2) =>
                          Except.ok
                            (Node.query pattern1 index arguments1 mode branches,
                              env2))
                | _ => Except.error ScriptError.invalidQueryRef
              | _ =>
                Except.error
                  (ScriptError.directiveSignatureArity keyword
                    ⟨1, signature.length⟩)
            | none =>
              -- try_compile_branch_random; the literal seed
              -- `fastrand::u64(..)` is an ambient draw from the external
              -- generator, embedded as the fixed draw 0
              let randParse :=
                match tryParseKeywordDirective (SNode.mk kind children)
                    "random" with
                | Except.error e => Except.error e
                | Except.ok (some seeds) => Except.ok (some (seeds, false))
                | Except.ok none =>
                  match tryParseKeywordDirective (SNode.mk kind children)
                      "any-random" with
                  | Except.error e => Except.error e
                  | Except.ok (some seeds) => Except.ok (some (seeds, true))
                  | Except.ok none => Except.ok none
              match randParse with
              | Except.error e => Except.error e
              | Except.ok (some (seeds, anyFlag)) =>
                match compileSeedRefs env seeds with
                | Except.error e => Except.error e
                | Except.ok ctxSeeds =>
                  match compileBranches env children with
                  | Except.error e => Except.error e
                  | Except.ok (branches, env1) =>
                    Except.ok (Node.random 0 ctxSeeds branches anyFlag, env1)
              | Except.ok none =>
                Except.error ScriptError.unrecognizedNode
termination_by (sizeOf node, 1)

/-- compileBranches mirrors `compile_branches`, threading the lexical
environment through the compiled siblings. -/
def compileBranches (env : CEnv) (nodes : List SNode) :
    Except ScriptError (List Node × CEnv) :=
  match nodes with
  | [] => Except.ok ([], env)
  | node :: rest =>
    match compileBranch env node with
    | Except.error e => Except.error e
    | Except.ok (compiled, env1) =>
      match compileBranches env1 rest with
      | Except.error e => Except.error e
      | Except.ok (compiledRest, env2) =>
        Except.ok (compiled :: compiledRest, env2)
termination_by (sizeOf nodes, 0)

/-- compileSwitchCases is the `for child in node.children()` loop of
`try_compile_branch_switch`: each child must be a `case:` directive
whose pattern count matches the target count; each case compiles the
shared targets, its patterns and its body in a fresh scope into a
match node. -/
def compileSwitchCases (env : CEnv) (targets : List Item)
    (nodes : List SNode) : Except ScriptError (List Node × CEnv) :=
  match nodes with
  | [] => Except.ok ([], env)
  | child@(SNode.mk _ childChildren) :: rest =>
    match tryParseKeywordDirective child "case" with
    | Except.error e => Except.error e
    | Except.ok none => Except.error ScriptError.invalidSwitchCase
    | Except.ok (some patterns) =>
      if targets.length != patterns.length then
        Except.error
          (ScriptError.patternArity ⟨targets.length, patterns.length⟩)
      else
        match env.scope [] (fun env => do
          let targets1 ← compileValues env targets
          match compilePatternItems env patterns with
          | Except.error e => Except.error e
          | Except.ok (patterns1, env1) =>
            match compileBranches env1 childChildren with
            | Except.error e => Except.error e
            | Except.ok (branches, env2) =>
              Except.ok (Node.matchNode targets1 patterns1 branches, env2)) with
        | Except.error e => Except.error e
        | Except.ok (caseNode, env1) =>
          match compileSwitchCases env1 targets rest with
          | Except.error e => Except.error e
          | Except.ok (cases, env2) => Except.ok (caseNode :: cases, env2)
termination_by (sizeOf nodes, 0)

end

/-- compileNodeRoot mirrors `compile_node_root`: a fresh environment,
the parameters declared in a scope, the children compiled as the body
sequence, and the high-water mark recorded as the root's lexical
count. -/
def compileNodeRoot (index : Nat) (ids : IdSpace)
    (parameters : List String) (children : List SNode) :
    Except ScriptError NodeRoot :=
  let env := CEnv.new ids
  match env.scope parameters (fun env =>
    match compileBranches env children with
    | Except.error e => Except.error e
    | Except.ok (nodes, env1) =>
      Except.ok
        (NodeRoot.mk (some index) (Node.sequence nodes) env1.maxVars, env1)) with
  | Except.error e => Except.error e
  | Except.ok (root, _) => Except.ok root

/-- collectActionDirectives is the `'children` loop of
`compile_action_root`: each child must be one of the `conditions:`,
`effects:` or `discovery:` label directives, whose children are
appended to the matching bucket; any other child is an unrecognized
action directive. The `inherit` keyword declared in
src/tree/script/compile/parse/kw.rs is not among the attempts. -/
def collectActionDirectives :
    List SNode → List SNode → List SNode → List SNode →
    Except ScriptError (List SNode × List SNode × List SNode)
  | [], conditions, effects, discovery =>
    Except.ok (conditions, effects, discovery)
  | child :: rest, conditions, effects, discovery =>
    match tryParseLabelDirective child "conditions" with
    | Except.error e => Except.error e
    | Except.ok true =>
      collectActionDirectives rest (conditions ++ child.children)
        effects discovery
    | Except.ok false =>
      match tryParseLabelDirective child "effects" with
      | Except.error e => Except.error e
      | Except.ok true =>
        collectActionDirectives rest conditions
          (effects ++ child.children) discovery
      | Except.ok false =>
        match tryParseLabelDirective child "discovery" with
        | Except.error e => Except.error e
        | Except.ok true =>
          collectActionDirectives rest conditions effects
            (discovery ++ child.children)
        | Except.ok false =>
          Except.error ScriptError.unrecognizedActionDirective

/-- compileActionRoot mirrors `compile_action_root`: the children are
sorted into the three accepted buckets, the discovery nodes are
compiled in a fresh environment outside the parameter scope, and the
conditions and effects are compiled under the declared parameters with
the high-water mark recorded. The source constructs the `ActionRoot`
without its `inherit` field (the snapshot does not compile as
written); nothing populates it, so it is the default empty list. -/
def compileActionRoot (index : Nat) (ids : IdSpace)
    (parameters : List String) (children : List SNode) :
    Except ScriptError ActionRoot :=
  match collectActionDirectives children [] [] [] with
  | Except.error e => Except.error e
  | Except.ok (conditions, effects, discovery) =>
    let env := CEnv.new ids
    match compileBranches env discovery with
    | Except.error e => Except.error e
    | Except.ok (discovery1, env1) =>
      match env1.scope parameters (fun env =>
        match compileBranches env conditions with
        | Except.error e => Except.error e
        | Except.ok (conditions1, env2) =>
          match compileEffectList env2 effects with
          | Except.error e => Except.error e
          | Except.ok effects1 =>
            Except.ok
              (ActionRoot.mk (some index) effects1 [] conditions1
                discovery1 env2.maxVars, env2)) with
      | Except.error e => Except.error e
      | Except.ok (root, _) => Except.ok root

/-- evalAllFail threads an evaluator over a node list and returns the
resulting lexical vector and state when every node evaluates to
failure (the continue case of the selection-style loops), and `none`
as soon as some node does not. -/
def evalAllFail (ev : Ev) (cx : Cx) : List Node → Lex → St →
    Option (Lex × St)
  | [], lex, st => some (lex, st)
  | node :: rest, lex, st =>
    match ev cx node lex st with
    | (Outcome.failure, lex1, st1) => evalAllFail ev cx rest lex1 st1
    | _ => none

/-- CacheOK states that every cache line stored under an inactive key
carries a non-action outcome. -/
def CacheOK (cache : List CacheLine) : Prop :=
  ∀ cl ∈ cache, cl.is_active = false → cl.outcome.is_action = false

/-- LexPreserving states that an evaluator hands the lexical slot
vector back exactly as it received it. -/
def LexPreserving (ev : Ev) : Prop :=
  ∀ cx node lex st, (ev cx node lex st).2.1 = lex

/-- NonActivating states that an evaluator running in an inactive
context with a `CacheOK` cache never produces an action outcome and
preserves `CacheOK`. -/
def NonActivating (ev : Ev) : Prop :=
  ∀ cx node lex st, cx.is_active = false → CacheOK st.cache →
    (ev cx node lex st).1.is_action = false
      ∧ CacheOK (ev cx node lex st).2.2.cache

/-- resultNotAction reports that a top-level evaluation result is not
a produced action. -/
def resultNotAction : Except IdError Outcome → Bool
  | Except.ok (Outcome.action _) => false
  | _ => true

/-- C6: the claim states that equality and ordering on `Value` are
total, in particular that `Value::Float(NaN)` equals itself and that
any two values are comparable. The source derives only `PartialEq` and
`PartialOrd` over a plain `f32` (src/value.rs lines 13-20), so
`Float(NaN) == Float(NaN)` is false and the comparison of NaN with
itself is undefined; this theorem evaluates the embedded derived
equality and partial comparison at the NaN float. -/
theorem value_nan_equality_not_total :
    valueEq (Value.float F32.nan) (Value.float F32.nan) = false
      ∧ valuePartialCmp (Value.float F32.nan) (Value.float F32.nan)
          = none := by
  constructor
  · simp [valueEq, f32Eq]
  · simp [valuePartialCmp, f32PartialCmp]

/-- C8: the claim states that an action declaration accepts the child
directives `conditions:`, `effects:`, `discovery:` and `inherit:`, and
that an action with an `inherit:` child compiles. In the source,
`compile_action_root` tries only the first three keywords and reports
any other child as an unrecognized action directive, so an action
whose only child is an `inherit:` directive fails to compile; the
second conjunct shows the three accepted directives do compile. -/
theorem compile_action_root_rejects_inherit :
    compileActionRoot 0 IdSpace.empty []
        [SNode.mk (SNodeKind.directive [Item.word "inherit"] []) []]
      = Except.error ScriptError.unrecognizedActionDirective
    ∧ compileActionRoot 0 IdSpace.empty []
        [SNode.mk (SNodeKind.directive [Item.word "conditions"] []) [],
         SNode.mk (SNodeKind.directive [Item.word "effects"] []) [],
         SNode.mk (SNodeKind.directive [Item.word "discovery"] []) []]
      = Except.ok ⟨some 0, [], [], [], [], 0⟩ := by
  constructor
  · rfl
  · simp [compileActionRoot, collectActionDirectives, tryParseLabelDirective,
      tryParseKeywordDirective, matchDirective, SNode.kind, SNode.children,
      Item.wordStr, CEnv.new, CEnv.scope, declareAll, compileBranches,
      compileEffectList, IdSpace.empty]

/-- C9 counterexample: the claim states that a conflict with an
already-registered identifier is returned to the caller as an error
value and does not panic. Registering the effect `c` on a builder that
already holds a condition `c` hits the source's `panic!`
(`RegResult.panicked` embeds the panic); no error value is returned,
refuting the claim at this input. -/
theorem register_effect_conflict_panics :
    BehaviorTreeBuilder.register_effect
        ⟨[], [], [("c", 0, fun _ => false)], [], [], []⟩ "c" 0
        (fun _ => none)
      = RegResult.panicked "effect id `c` was already used for a condition" := by
  simp [BehaviorTreeBuilder.register_effect, IdSpace.setEffect, IdSpace.kindOf,
    findName, is_symbol, reservedChar, Kind.describe]

/-- C9: the claim (amended) states that for each builder registration
operation an invalid name or a conflict with an already-registered
identifier of any kind causes a panic carrying a descriptive message
(the source uses `assert!`/`panic!`; no error value is returned to the
caller), while a valid fresh name registers the handler and leaves the
builder extended by exactly that entry. -/
theorem builder_registration_panics :
    (∀ (b : IdSpace) (id : String) (v : Value),
      is_variable id = false →
        BehaviorTreeBuilder.register_global b id v
          = RegResult.panicked
              ("global id `" ++ id ++ "` is not a valid variable"))
    ∧ (∀ (b : IdSpace) (id : String) (v : Value) (k : Kind),
      is_variable id = true → b.kindOf id = some k →
        BehaviorTreeBuilder.register_global b id v
          = RegResult.panicked
              ("global id `" ++ id ++ "` was already used for " ++ k.describe))
    ∧ (∀ (b : IdSpace) (id : String) (v : Value),
      is_variable id = true → b.kindOf id = none →
        BehaviorTreeBuilder.register_global b id v
          = RegResult.ok { b with globals := b.globals ++ [(id, 0, v)] })
    ∧ (∀ (b : IdSpace) (id : String) (n : Nat)
        (h : List Value → Option Nat),
      is_symbol id = false →
        BehaviorTreeBuilder.register_effect b id n h
          = RegResult.panicked
              ("effect id `" ++ id ++ "` is not a valid symbol"))
    ∧ (∀ (b : IdSpace) (id : String) (n : Nat)
        (h : List Value → Option Nat) (k : Kind),
      is_symbol id = true → b.kindOf id = some k →
        BehaviorTreeBuilder.register_effect b id n h
          = RegResult.panicked
              ("effect id `" ++ id ++ "` was already used for " ++ k.describe))
    ∧ (∀ (b : IdSpace) (id : String) (n : Nat)
        (h : List Value → Option Nat),
      is_symbol id = true → b.kindOf id = none →
        BehaviorTreeBuilder.register_effect b id n h
          = RegResult.ok { b with effects := b.effects ++ [(id, n, h)] })
    ∧ (∀ (b : IdSpace) (id : String) (n : Nat)
        (h : List Value → Bool),
      is_symbol id = false →
        BehaviorTreeBuilder.register_condition b id n h
          = RegResult.panicked
              ("condition id `" ++ id ++ "` is not a valid symbol"))
    ∧ (∀ (b : IdSpace) (id : String) (n : Nat)
        (h : List Value → Bool) (k : Kind),
      is_symbol id = true → b.kindOf id = some k →
        BehaviorTreeBuilder.register_condition b id n h
          = RegResult.panicked
              ("condition id `" ++ id ++ "` was already used for "
                ++ k.describe))
    ∧ (∀ (b : IdSpace) (id : String) (n : Nat)
        (h : List Value → Bool),
      is_symbol id = true → b.kindOf id = none →
        BehaviorTreeBuilder.register_condition b id n h
          = RegResult.ok
              { b with conditions := b.conditions ++ [(id, n, h)] })
    ∧ (∀ (b : IdSpace) (id : String) (n : Nat)
        (h : List Value → List Value),
      is_symbol id = false →
        BehaviorTreeBuilder.register_query b id n h
          = RegResult.panicked
              ("query id `" ++ id ++ "` is not a valid symbol"))
    ∧ (∀ (b : IdSpace) (id : String) (n : Nat)
        (h : List Value → List Value) (k : Kind),
      is_symbol id = true → b.kindOf id = some k →
        BehaviorTreeBuilder.register_query b id n h
          = RegResult.panicked
              ("query id `" ++ id ++ "` was already used for " ++ k.describe))
    ∧ (∀ (b : IdSpace) (id : String) (n : Nat)
        (h : List Value → List Value),
      is_symbol id = true → b.kindOf id = none →
        BehaviorTreeBuilder.register_query b id n h
          = RegResult.ok { b with queries := b.queries ++ [(id, n, h)] }) := by
  refine ⟨?_, ?_, ?_, ?_, ?_, ?_, ?_, ?_, ?_, ?_, ?_, ?_⟩ <;>
    intro b id
  case _ =>
    intro v hvar
    simp [BehaviorTreeBuilder.register_global, hvar]
  case _ =>
    intro v k hvar hkind
    simp [BehaviorTreeBuilder.register_global, hvar, IdSpace.setGlobal, hkind]
  case _ =>
    intro v hvar hkind
    simp [BehaviorTreeBuilder.register_global, hvar, IdSpace.setGlobal, hkind]
  case _ =>
    intro n h hsym
    simp [BehaviorTreeBuilder.register_effect, hsym]
  case _ =>
    intro n h k hsym hkind
    simp [BehaviorTreeBuilder.register_effect, hsym, IdSpace.setEffect, hkind]
  case _ =>
    intro n h hsym hkind
    simp [BehaviorTreeBuilder.register_effect, hsym, IdSpace.setEffect, hkind]
  case _ =>
    intro n h hsym
    simp [BehaviorTreeBuilder.register_condition, hsym]
  case _ =>
    intro n h k hsym hkind
    simp [BehaviorTreeBuilder.register_condition, hsym, IdSpace.setCond, hkind]
  case _ =>
    intro n h hsym hkind
    simp [BehaviorTreeBuilder.register_condition, hsym, IdSpace.setCond, hkind]
  case _ =>
    intro n h hsym
    simp [BehaviorTreeBuilder.register_query, hsym]
  case _ =>
    intro n h k hsym hkind
    simp [BehaviorTreeBuilder.register_query, hsym, IdSpace.setQuery, hkind]
  case _ =>
    intro n h hsym hkind
    simp [BehaviorTreeBuilder.register_query, hsym, IdSpace.setQuery, hkind]

/-- C9 witness: the amended registration behavior at concrete inputs —
an invalid global name panics, a conflicting effect name panics, and a
fresh query name registers. -/
theorem builder_registration_panics_witness :
    BehaviorTreeBuilder.register_global IdSpace.empty "x" (Value.int 0)
        = RegResult.panicked "global id `x` is not a valid variable"
    ∧ BehaviorTreeBuilder.register_effect
          ⟨[], [], [], [("q", 0, fun _ => [])], [], []⟩ "q" 2
          (fun _ => some 1)
        = RegResult.panicked "effect id `q` was already used for a query"
    ∧ BehaviorTreeBuilder.register_query IdSpace.empty "q" 0 (fun _ => [])
        = RegResult.ok
            { IdSpace.empty with queries := [("q", 0, fun _ => [])] } := by
  refine ⟨?_, ?_, ?_⟩
  · exact builder_registration_panics.1 IdSpace.empty "x" (Value.int 0)
      (by simp [is_variable])
  · exact builder_registration_panics.2.2.2.2.1
      ⟨[], [], [], [("q", 0, fun _ => [])], [], []⟩ "q" 2 (fun _ => some 1)
      Kind.query
      (by simp [is_symbol, reservedChar])
      (by simp [IdSpace.kindOf, findName])
  · exact builder_registration_panics.2.2.2.2.2.2.2.2.2.2.2
      IdSpace.empty "q" 0 (fun _ => [])
      (by simp [is_symbol, reservedChar])
      (by simp [IdSpace.kindOf, findName, IdSpace.empty])

/-- C7 counterexample: the claim states that compiling `node: t $a`
whose body is the directive `match $a: $a` fails with
`ShadowedLexical("$a")` at the inner pattern binding. Compiling that
declaration (parameter list `$a`, one `match` directive child) does
not produce that error — as the next theorem shows, it succeeds. -/
theorem match_bound_var_not_shadowed :
    compileNodeRoot 0 IdSpace.empty ["$a"]
        [SNode.mk
          (SNodeKind.directive [Item.word "match", Item.word "$a"]
            [Item.word "$a"]) []]
      ≠ Except.error (ScriptError.shadowedLexical "$a") := by
  simp +decide [compileNodeRoot, CEnv.scope, declareAll, CEnv.declare,
    findName, CEnv.new, compileBranches, compileBranch, findLabelDispatch,
    dispatchKeywords, tryParseLabelDirective, tryParseKeywordDirective,
    matchDirective, SNode.kind, Item.wordStr, matchRef, matchVar, matchSym,
    matchWildcard, is_symbol, is_variable, reservedChar, compileValues,
    compileValue, CEnv.resolve, compilePatternItems, compilePatternItem,
    CEnv.resolve_pattern, resolveIn, IdSpace.kindOf, IdSpace.empty,
    Node.sequence]
  intro h
  exact Except.noConfusion h

/-- C7: the claim (amended) states that compiling `node: t $a` whose
body contains the directive `match $a: $a` succeeds: the inner `$a`
pattern occurrence is already bound (by the parameter), so
`Env::resolve_pattern` compiles it to `Pattern::Lexical(0)`, an
equality test against the existing lexical, rather than raising
`ShadowedLexical` (the source raises that error only from
`Env::declare`, reached for names that are not yet bound). -/
theorem match_bound_var_compiles_to_lexical :
    compileNodeRoot 0 IdSpace.empty ["$a"]
        [SNode.mk
          (SNodeKind.directive [Item.word "match", Item.word "$a"]
            [Item.word "$a"]) []]
      = Except.ok
          ⟨some 0,
            Node.sequence
              [Node.matchNode [ProtoValue.lexical 0] [Pattern.lexical 0] []],
            1⟩ := by
  simp +decide [compileNodeRoot, CEnv.scope, declareAll, CEnv.declare,
    findName, CEnv.new, compileBranches, compileBranch, findLabelDispatch,
    dispatchKeywords, tryParseLabelDirective, tryParseKeywordDirective,
    matchDirective, SNode.kind, Item.wordStr, matchRef, matchVar, matchSym,
    matchWildcard, is_symbol, is_variable, reservedChar, compileValues,
    compileValue, CEnv.resolve, compilePatternItems, compilePatternItem,
    CEnv.resolve_pattern, resolveIn, IdSpace.kindOf, IdSpace.empty,
    Node.sequence]
  rfl

/-- C5 counterexample: the claim quantifies over every cache key, but
cache lookup compares arguments with the derived `PartialEq` of
`Value`, under which a NaN float argument never equals itself. For the
key `(Cond 0, [Float(NaN)], inactive)` absent from a fresh cache, the
outer get inserts its placeholder, yet the re-entrant get on the very
same key misses (NaN ≠ NaN), invokes its own outcome computation and
returns that computation's `success` instead of the claimed
`Failure`. -/
theorem cache_reentrant_nan_invokes_computation :
    (cacheGet (RefIdx.cond 0) [Value.float F32.nan] false
        (fun st1 =>
          cacheGet (RefIdx.cond 0) [Value.float F32.nan] false
            (fun st2 => (Outcome.success, st2)) st1)
        St.initial).1 = Outcome.success := rfl

/-- C5: the claim (amended) states that for every cache key (ref
index, arguments, is_active) not currently present whose arguments are
self-equal under `Value`'s `PartialEq` (in particular NaN-free; always
true under the intended total equality), `ContextCache::get` inserts a
placeholder entry with `Outcome::Failure` before invoking the outcome
computation, so a re-entrant get on the same key at that point returns
`Failure` without invoking its own computation and leaves the state
unchanged; afterwards the entry holds the real outcome and sits at the
most-recently-used front of the cache. -/
theorem cache_get_tentative_failure (index : RefIdx)
    (arguments : List Value) (is_active : Bool)
    (calcOutcome : St → Outcome × St) (st : St) (cl : CacheLine) (st1 : St)
    (hcl : cl = ⟨index, is_active, arguments, Outcome.failure⟩)
    (hst1 : st1 = { st with cache := cacheInsert st.cache cl })
    (hmiss : cacheFind st.cache index arguments is_active = none)
    (hrefl : valueEqList arguments arguments = true) :
    (∀ calc2 : St → Outcome × St,
        cacheGet index arguments is_active calc2 st1 = (Outcome.failure, st1))
    ∧ (cacheGet index arguments is_active calcOutcome st).1
        = (calcOutcome st1).1
    ∧ ∃ rest, (cacheGet index arguments is_active calcOutcome st).2.cache
        = { cl with outcome := (calcOutcome st1).1 } :: rest := by
  have hins : cacheInsert st.cache cl = cl :: st.cache.take 4095 := by
    simp [cacheInsert, LRU_LEN, List.take_succ_cons]
  refine ⟨?_, ?_, ?_⟩
  · intro calc2
    simp only [cacheGet, hst1, hins]
    simp [cacheFind, List.findIdx?_cons, hcl, hrefl, cacheInsert, LRU_LEN,
      List.take_succ_cons, List.take_take]
  · simp [cacheGet, hmiss, hst1, hcl]
  · simp only [cacheGet, hmiss, hst1, hcl]
    simp only [cacheReplaceOrInsert]
    rcases hfind : cacheFind (calcOutcome _).2.cache index arguments is_active
      with _ | i
    · simp [hfind, cacheInsert, LRU_LEN, List.take_succ_cons]
    · simp [hfind]

/-- C5 witness: the amended cache behavior at the concrete missing key
`(Cond 0, [Int 1], inactive)` on a fresh state, with the computation
returning `success`. -/
theorem cache_get_tentative_failure_witness :
    (∀ calc2 : St → Outcome × St,
        cacheGet (RefIdx.cond 0) [Value.int 1] false calc2
            ⟨[⟨RefIdx.cond 0, false, [Value.int 1], Outcome.failure⟩], [], []⟩
          = (Outcome.failure,
              ⟨[⟨RefIdx.cond 0, false, [Value.int 1], Outcome.failure⟩],
                [], []⟩))
    ∧ (cacheGet (RefIdx.cond 0) [Value.int 1] false
          (fun st => (Outcome.success, st)) St.initial).1 = Outcome.success
    ∧ ∃ rest, (cacheGet (RefIdx.cond 0) [Value.int 1] false
          (fun st => (Outcome.success, st)) St.initial).2.cache
        = (⟨RefIdx.cond 0, false, [Value.int 1], Outcome.success⟩
            : CacheLine) :: rest :=
  cache_get_tentative_failure (RefIdx.cond 0) [Value.int 1] false
    (fun st => (Outcome.success, st)) St.initial
    ⟨RefIdx.cond 0, false, [Value.int 1], Outcome.failure⟩
    ⟨[⟨RefIdx.cond 0, false, [Value.int 1], Outcome.failure⟩], [], []⟩
    rfl rfl rfl rfl

/-- condLoop_skip: a prefix of branches whose guards all evaluate to
failure is skipped, threading the lexical vector and state. -/
theorem condLoop_skip (ev : Ev) (cx : Cx) (elseBranch : Option Node) :
    ∀ (pre rest : List (Node × Node)) (lex : Lex) (st : St)
      (lex1 : Lex) (st1 : St),
      evalAllFail ev cx (pre.map Prod.fst) lex st = some (lex1, st1) →
      condLoop ev cx elseBranch (pre ++ rest) lex st
        = condLoop ev cx elseBranch rest lex1 st1 := by
  intro pre
  induction pre with
  | nil =>
    intro rest lex st lex1 st1 h
    simp [evalAllFail] at h
    simp [h.1, h.2]
  | cons hd tl ih =>
    intro rest lex st lex1 st1 h
    simp only [List.map_cons, evalAllFail] at h
    rcases hg : ev cx hd.1 lex st with ⟨o, lexg, stg⟩
    rw [hg] at h
    rcases o with _ | _ | a
    · simp at h
    · simp at h
      rcases hd with ⟨g, b⟩
      simp only [List.cons_append, condLoop]
      simp only at hg
      rw [hg]
      exact ih rest lexg stg lex1 st1 h
    · simp at h

/-- condLoop_all_fail: when every guard fails the else branch decides
(failure when absent). -/
theorem condLoop_all_fail (ev : Ev) (cx : Cx) (elseBranch : Option Node)
    (branches : List (Node × Node)) (lex : Lex) (st : St)
    (lex1 : Lex) (st1 : St)
    (h : evalAllFail ev cx (branches.map Prod.fst) lex st = some (lex1, st1)) :
    condLoop ev cx elseBranch branches lex st
      = match elseBranch with
        | some node => ev cx node lex1 st1
        | none => (Outcome.failure, lex1, st1) := by
  have := condLoop_skip ev cx elseBranch branches [] lex st lex1 st1 h
  rw [List.append_nil] at this
  rw [this]
  rcases elseBranch with _ | e <;> simp [condLoop]

/-- C3 counterexample: the claim states that `Cond` guards are
evaluated in inactive mode, so a guard can never yield `Action(_)`,
and that an `Action(_)` guard outcome is treated as `Failure` with the
scan continuing (here: no case taken, no else, so the claim predicts
`Failure`). In the source the guard runs in the current — here active —
context and its action outcome is returned as the outcome of the whole
`Cond`: evaluating a `Cond` whose single guard references a trivial
action yields that `Action`, not `Failure`. -/
theorem cond_action_guard_returned :
    (Node.eval
        ⟨⟨[], [], [], [], [("act", 0, ⟨some 0, [], [], [], [], 0⟩)], []⟩,
          fun _ l => l⟩
        5 (Cx.eval true)
        (Node.cond
          [(Node.ref (RefIdx.action 0) RefMode.inherit [], Node.failure)]
          none)
        [] St.initial).1
      = Outcome.action ⟨0, [], []⟩ := rfl

/-- C3: the claim (amended) states that for every `Cond` node the case
guards are evaluated sequentially in the current (possibly active)
context; a guard that yields `Success` selects its body, evaluated in
the same context; a guard that yields `Failure` lets the scan
continue; a guard that yields any other outcome — an `Action(_)`,
possible because guards are not forced inactive — short-circuits the
`Cond`, which returns that outcome unchanged; and when every guard
fails, the else branch is evaluated if present, otherwise the result
is `Failure`. -/
theorem cond_guard_semantics (env : Env) (fuel : Nat) (cx : Cx)
    (branches : List (Node × Node)) (elseBranch : Option Node)
    (lex : Lex) (st : St) :
    (∀ (pre : List (Node × Node)) (g b : Node)
        (post : List (Node × Node)) (lex1 : Lex) (st1 : St),
      branches = pre ++ (g, b) :: post →
      evalAllFail (Node.eval env fuel) cx (pre.map Prod.fst) lex st
        = some (lex1, st1) →
      ((∀ (lex2 : Lex) (st2 : St),
          Node.eval env fuel cx g lex1 st1 = (Outcome.success, lex2, st2) →
          Node.eval env (fuel + 1) cx (Node.cond branches elseBranch) lex st
            = Node.eval env fuel cx b lex2 st2)
        ∧ (∀ (a : Action) (lex2 : Lex) (st2 : St),
          Node.eval env fuel cx g lex1 st1 = (Outcome.action a, lex2, st2) →
          Node.eval env (fuel + 1) cx (Node.cond branches elseBranch) lex st
            = (Outcome.action a, lex2, st2))))
    ∧ (∀ (lex1 : Lex) (st1 : St),
      evalAllFail (Node.eval env fuel) cx (branches.map Prod.fst) lex st
        = some (lex1, st1) →
      Node.eval env (fuel + 1) cx (Node.cond branches elseBranch) lex st
        = match elseBranch with
          | some node => Node.eval env fuel cx node lex1 st1
          | none => (Outcome.failure, lex1, st1)) := by
  constructor
  · intro pre g b post lex1 st1 hsplit hpre
    subst hsplit
    have hloop :
        Node.eval env (fuel + 1) cx
            (Node.cond (pre ++ (g, b) :: post) elseBranch) lex st
          = condLoop (Node.eval env fuel) cx elseBranch
              (pre ++ (g, b) :: post) lex st := by
      simp [Node.eval]
    rw [condLoop_skip (Node.eval env fuel) cx elseBranch pre ((g, b) :: post)
      lex st lex1 st1 hpre] at hloop
    constructor
    · intro lex2 st2 hg
      rw [hloop]
      simp only [condLoop]
      rw [hg]
    · intro a lex2 st2 hg
      rw [hloop]
      simp only [condLoop]
      rw [hg]
  · intro lex1 st1 hall
    have hloop :
        Node.eval env (fuel + 1) cx (Node.cond branches elseBranch) lex st
          = condLoop (Node.eval env fuel) cx elseBranch branches lex st := by
      simp [Node.eval]
    rw [hloop]
    exact condLoop_all_fail (Node.eval env fuel) cx elseBranch branches
      lex st lex1 st1 hall

/-- C3 witness: the amended Cond semantics at concrete inputs — a
failing first guard is skipped and the succeeding second guard selects
its body, and with all guards failing and no else branch the Cond
fails. -/
theorem cond_guard_semantics_witness :
    Node.eval ⟨IdSpace.empty, fun _ l => l⟩ 2 (Cx.eval true)
        (Node.cond
          [(Node.failure, Node.success), (Node.success, Node.success)] none)
        [] St.initial
      = Node.eval ⟨IdSpace.empty, fun _ l => l⟩ 1 (Cx.eval true)
          Node.success [] St.initial
    ∧ Node.eval ⟨IdSpace.empty, fun _ l => l⟩ 2 (Cx.eval true)
        (Node.cond [(Node.failure, Node.failure)] none) [] St.initial
      = (Outcome.failure, [], St.initial) := by
  constructor
  · exact ((cond_guard_semantics ⟨IdSpace.empty, fun _ l => l⟩ 1 (Cx.eval true)
      [(Node.failure, Node.success), (Node.success, Node.success)] none []
      St.initial).1 [(Node.failure, Node.success)] Node.success Node.success
      [] [] St.initial rfl rfl).1 [] St.initial rfl
  · exact (cond_guard_semantics ⟨IdSpace.empty, fun _ l => l⟩ 1 (Cx.eval true)
      [(Node.failure, Node.failure)] none [] St.initial).2 [] St.initial rfl

/-- randomLoop_skip: a prefix of popped branches that all evaluate to
failure is skipped, threading the lexical vector and state. -/
theorem randomLoop_skip (ev : Ev) (cx : Cx) (checkAny : Bool) :
    ∀ (pre rest : List Node) (lex : Lex) (st : St) (lex1 : Lex) (st1 : St),
      evalAllFail ev cx pre lex st = some (lex1, st1) →
      randomLoop ev cx checkAny (pre ++ rest) lex st
        = randomLoop ev cx checkAny rest lex1 st1 := by
  intro pre
  induction pre with
  | nil =>
    intro rest lex st lex1 st1 h
    simp [evalAllFail] at h
    simp [h.1, h.2]
  | cons hd tl ih =>
    intro rest lex st lex1 st1 h
    simp only [evalAllFail] at h
    rcases hg : ev cx hd lex st with ⟨o, lexg, stg⟩
    rw [hg] at h
    rcases o with _ | _ | a
    · simp at h
    · simp at h
      simp only [List.cons_append, randomLoop]
      rw [hg]
      simp [Outcome.is_success, Outcome.is_action]
      exact ih rest lexg stg lex1 st1 h
    · simp at h

/-- C2 counterexample: the claim states that when a shuffled branch of
a `check_any` Random node evaluates to `Action(_)` and at least one of
the remaining shuffled branches succeeds, the overall outcome is that
`Action(_)`. With an identity shuffle over the branch vector
`[Success, ref-to-trivial-action]`, the popped last branch produces an
action (first conjunct) and the remaining branch succeeds, yet the
Random node evaluates to plain `Success`, discarding the action
(second conjunct). -/
theorem random_check_any_returns_success :
    (Node.eval
        ⟨⟨[], [], [], [], [("act", 0, ⟨some 0, [], [], [], [], 0⟩)], []⟩,
          fun _ l => l⟩
        4 (Cx.eval true)
        (Node.ref (RefIdx.action 0) RefMode.inherit []) [] St.initial).1
      = Outcome.action ⟨0, [], []⟩
    ∧ (Node.eval
        ⟨⟨[], [], [], [], [("act", 0, ⟨some 0, [], [], [], [], 0⟩)], []⟩,
          fun _ l => l⟩
        5 (Cx.eval true)
        (Node.random 0 []
          [Node.success, Node.ref (RefIdx.action 0) RefMode.inherit []] true)
        [] St.initial).1
      = Outcome.success := ⟨rfl, rfl⟩

/-- C2: the claim (amended) states that for every Random node with
`check_any` set, when the popping loop reaches a shuffled branch that
evaluates to `Action(_)` (all earlier popped branches having failed),
the evaluator additionally scans the remaining shuffled branches in
the current (not inactive) context; if at least one of them evaluates
to `Success` the overall outcome is plain `Success` (the action is
discarded), and if none does the overall outcome is that `Action(_)`
(not `Failure`). The shuffled vector is popped from the back, so the
loop order is its reverse and the remaining branches are scanned in
vector order. -/
theorem random_check_any_semantics (env : Env) (fuel : Nat) (cx : Cx)
    (seed : Nat) (ctxSeeds : List Nat) (branches : List Node)
    (lex : Lex) (st : St) (pre : List Node) (b : Node) (rest : List Node)
    (lex1 : Lex) (st1 : St) (a : Action) (lex2 : Lex) (st2 : St)
    (horder : (env.shuffle (effSeed env seed ctxSeeds) branches).reverse
      = pre ++ b :: rest)
    (hpre : evalAllFail (Node.eval env fuel) cx pre lex st = some (lex1, st1))
    (hb : Node.eval env fuel cx b lex1 st1 = (Outcome.action a, lex2, st2)) :
    (∀ (lex3 : Lex) (st3 : St),
      checkAnyLoop (Node.eval env fuel) cx rest.reverse lex2 st2
        = (true, lex3, st3) →
      Node.eval env (fuel + 1) cx
          (Node.random seed ctxSeeds branches true) lex st
        = (Outcome.success, lex3, st3))
    ∧ (∀ (lex3 : Lex) (st3 : St),
      checkAnyLoop (Node.eval env fuel) cx rest.reverse lex2 st2
        = (false, lex3, st3) →
      Node.eval env (fuel + 1) cx
          (Node.random seed ctxSeeds branches true) lex st
        = (Outcome.action a, lex3, st3)) := by
  have hloop :
      Node.eval env (fuel + 1) cx
          (Node.random seed ctxSeeds branches true) lex st
        = randomLoop (Node.eval env fuel) cx true
            (env.shuffle (effSeed env seed ctxSeeds) branches).reverse lex st := by
    simp [Node.eval, effSeed]
  rw [horder] at hloop
  rw [randomLoop_skip (Node.eval env fuel) cx true pre (b :: rest)
    lex st lex1 st1 hpre] at hloop
  simp only [randomLoop] at hloop
  rw [hb] at hloop
  simp only [Outcome.is_success, Outcome.is_action, Bool.false_eq_true,
    if_false, if_true] at hloop
  constructor
  · intro lex3 st3 hcheck
    rw [hloop, hcheck]
  · intro lex3 st3 hcheck
    rw [hloop, hcheck]

/-- C2 witness: the amended Random semantics at the concrete inputs of
the counterexample — the action-producing branch is popped first, the
remaining branch succeeds, and the overall outcome is `Success` with
the action's cache line retained. -/
theorem random_check_any_semantics_witness :
    Node.eval
        ⟨⟨[], [], [], [], [("act", 0, ⟨some 0, [], [], [], [], 0⟩)], []⟩,
          fun _ l => l⟩
        5 (Cx.eval true)
        (Node.random 0 []
          [Node.success, Node.ref (RefIdx.action 0) RefMode.inherit []] true)
        [] St.initial
      = (Outcome.success, [],
          ⟨[⟨RefIdx.action 0, true, [], Outcome.action ⟨0, [], []⟩⟩],
            [], []⟩) :=
  (random_check_any_semantics
    ⟨⟨[], [], [], [], [("act", 0, ⟨some 0, [], [], [], [], 0⟩)], []⟩,
      fun _ l => l⟩
    4 (Cx.eval true) 0 []
    [Node.success, Node.ref (RefIdx.action 0) RefMode.inherit []]
    [] St.initial
    [] (Node.ref (RefIdx.action 0) RefMode.inherit []) [Node.success]
    [] St.initial ⟨0, [], []⟩ []
    ⟨[⟨RefIdx.action 0, true, [], Outcome.action ⟨0, [], []⟩⟩], [], []⟩
    rfl rfl rfl).1 []
    ⟨[⟨RefIdx.action 0, true, [], Outcome.action ⟨0, [], []⟩⟩], [], []⟩
    rfl

/-- runEffects_some_calls: when every effect handler produces an
effect, the invocation log grows by exactly one record per effect in
declaration order. -/
theorem runEffects_some_calls (env : Env) (lex : Lex) :
    ∀ (es : List (Nat × List ProtoValue)) (st : St) (effs : List Nat)
      (st2 : St),
      runEffects env lex es st = (some effs, st2) →
      st2.calls = st.calls ++ es.map (effectCall env lex) := by
  intro es
  induction es with
  | nil =>
    intro st effs st2 h
    simp [runEffects] at h
    simp [← h.2]
  | cons e rest ih =>
    intro st effs st2 h
    simp only [runEffects] at h
    rcases hge : env.ids.getEffect e.1 (reifyValues env lex e.2)
      with _ | eff <;> rw [hge] at h
    · simp at h
    · rcases hrec : runEffects env lex rest
          { st with calls := st.calls ++ [(e.1, reifyValues env lex e.2)] }
        with ⟨oo, st2'⟩
      rw [hrec] at h
      rcases oo with _ | effs'
      · simp at h
      · simp at h
        have := ih _ effs' st2' hrec
        rw [h.2] at this
        simp [this, effectCall]

/-- runEffects_first_none: the first handler that returns `None`
aborts the loop with `none`; the handlers before it are invoked in
order, the failing handler is invoked, and no later handler is
(nothing past it enters the log). -/
theorem runEffects_first_none (env : Env) (lex : Lex) :
    ∀ (pre : List (Nat × List ProtoValue)) (e : Nat × List ProtoValue)
      (post : List (Nat × List ProtoValue)) (st : St),
      (∀ e' ∈ pre,
        (env.ids.getEffect e'.1 (reifyValues env lex e'.2)).isSome = true) →
      env.ids.getEffect e.1 (reifyValues env lex e.2) = none →
      runEffects env lex (pre ++ e :: post) st
        = (none,
            { st with calls := st.calls ++ pre.map (effectCall env lex)
                ++ [effectCall env lex e] }) := by
  intro pre
  induction pre with
  | nil =>
    intro e post st _ hnone
    simp [runEffects, hnone, effectCall]
  | cons e' rest ih =>
    intro e post st hpre hnone
    have h' := hpre e' (by simp)
    rcases Option.isSome_iff_exists.mp h' with ⟨eff, heff⟩
    simp only [List.cons_append, runEffects]
    rw [heff]
    simp only [List.append_eq]
    rw [ih e post _ (fun x hx => hpre x (by simp [hx])) hnone]
    simp [effectCall]

/-- C1: for every `ActionRoot` evaluation with arguments: the
conditions list is evaluated as a Sequence in the inactive version of
the context (which is inactive for every context shape), and any
non-success outcome of that sequence makes the whole evaluation return
`Failure` with the state exactly as the conditions left it — in
particular the action's effect-materialization step contributes no
effect-handler invocation to the log; when the conditions succeed the
effect handlers are invoked left-to-right in declaration order (the
log grows by one record per effect, in order, when all produce
effects), and when some handler returns `None` the first such handler
aborts the evaluation with `Failure`, the log ending at its record so
no later handler is invoked. -/
theorem action_root_eval_spec (ev : Ev) (env : Env) (cx : Cx)
    (root : ActionRoot) (arguments : List Value) (st : St) :
    ((cx.to_inactive_if_active).is_active = false)
    ∧ (∀ (o : Outcome) (lex1 : Lex) (st1 : St),
      evalSequence ev cx.to_inactive_if_active arguments root.conditions st
        = (o, lex1, st1) →
      o.is_success = false →
      ActionRoot.eval ev env cx root arguments st = (Outcome.failure, st1))
    ∧ (∀ (lex : Lex) (st' : St) (effs : List Nat) (st2 : St),
      runEffects env lex root.effects st' = (some effs, st2) →
      st2.calls = st'.calls ++ root.effects.map (effectCall env lex))
    ∧ (∀ (lex : Lex) (st' : St) (pre : List (Nat × List ProtoValue))
        (e : Nat × List ProtoValue) (post : List (Nat × List ProtoValue)),
      root.effects = pre ++ e :: post →
      (∀ e' ∈ pre,
        (env.ids.getEffect e'.1 (reifyValues env lex e'.2)).isSome = true) →
      env.ids.getEffect e.1 (reifyValues env lex e.2) = none →
      runEffects env lex root.effects st'
        = (none,
            { st' with calls := st'.calls ++ pre.map (effectCall env lex)
                ++ [effectCall env lex e] }))
    ∧ (∀ (lex1 : Lex) (st1 : St) (st2 : St),
      evalSequence ev cx.to_inactive_if_active arguments root.conditions st
        = (Outcome.success, lex1, st1) →
      runEffects env lex1 root.effects st1 = (none, st2) →
      ActionRoot.eval ev env cx root arguments st = (Outcome.failure, st2)) := by
  refine ⟨?_, ?_, ?_, ?_, ?_⟩
  · rcases cx with b | f
    · rcases b <;> rfl
    · rfl
  · intro o lex1 st1 hcond ho
    simp only [ActionRoot.eval]
    rw [hcond]
    simp [ho]
  · intro lex st' effs st2 h
    exact runEffects_some_calls env lex root.effects st' effs st2 h
  · intro lex st' pre e post hsplit hpre hnone
    rw [hsplit]
    exact runEffects_first_none env lex pre e post st' hpre hnone
  · intro lex1 st1 st2 hcond heff
    simp only [ActionRoot.eval]
    rw [hcond]
    simp only [Outcome.is_success, Bool.not_true, Bool.false_eq_true,
      if_false]
    rw [heff]

/-- C1 witness: the action-evaluation control flow at concrete inputs —
failing conditions abort before any effect-handler invocation, an
all-producing effect list logs its two invocations in declaration
order, and a `None` from the second of two handlers aborts with a log
ending at that handler. -/
theorem action_root_eval_spec_witness :
    ActionRoot.eval (fun _ _ lex st => (Outcome.failure, lex, st))
        ⟨⟨[], [("e", 0, fun _ => some 7)], [], [], [], []⟩, fun _ l => l⟩
        (Cx.eval true)
        ⟨some 0, [(0, [])], [], [Node.success], [], 0⟩ [] St.initial
      = (Outcome.failure, St.initial)
    ∧ (runEffects
        ⟨⟨[], [("a", 0, fun _ => some 7), ("b", 0, fun _ => some 8)],
          [], [], [], []⟩, fun _ l => l⟩
        [] [(0, []), (1, [])] St.initial).2.calls
      = [] ++ [(0, []), (1, [])].map
          (effectCall
            ⟨⟨[], [("a", 0, fun _ => some 7), ("b", 0, fun _ => some 8)],
              [], [], [], []⟩, fun _ l => l⟩ [])
    ∧ ActionRoot.eval (fun _ _ lex st => (Outcome.success, lex, st))
        ⟨⟨[], [("a", 0, fun _ => some 7), ("b", 0, fun _ => none)],
          [], [], [], []⟩, fun _ l => l⟩
        (Cx.eval true)
        ⟨some 0, [(0, []), (1, [])], [], [], [], 0⟩ [] St.initial
      = (Outcome.failure, ⟨[], [], [(0, []), (1, [])]⟩) := by
  refine ⟨?_, ?_, ?_⟩
  · exact (action_root_eval_spec (fun _ _ lex st => (Outcome.failure, lex, st))
      ⟨⟨[], [("e", 0, fun _ => some 7)], [], [], [], []⟩, fun _ l => l⟩
      (Cx.eval true) ⟨some 0, [(0, [])], [], [Node.success], [], 0⟩ []
      St.initial).2.1 Outcome.failure [] St.initial rfl rfl
  · exact (action_root_eval_spec (fun _ _ lex st => (Outcome.failure, lex, st))
      ⟨⟨[], [("a", 0, fun _ => some 7), ("b", 0, fun _ => some 8)],
        [], [], [], []⟩, fun _ l => l⟩
      (Cx.eval true) ⟨some 0, [(0, []), (1, [])], [], [], [], 0⟩ []
      St.initial).2.2.1 [] St.initial [7, 8] ⟨[], [], [(0, []), (1, [])]⟩
      rfl
  · exact (action_root_eval_spec (fun _ _ lex st => (Outcome.success, lex, st))
      ⟨⟨[], [("a", 0, fun _ => some 7), ("b", 0, fun _ => none)],
        [], [], [], []⟩, fun _ l => l⟩
      (Cx.eval true) ⟨some 0, [(0, []), (1, [])], [], [], [], 0⟩ []
      St.initial).2.2.2.2 [] St.initial ⟨[], [], [(0, []), (1, [])]⟩
      rfl rfl

mutual

/-- try_apply_prefix: pattern application only pushes new slots above
the caller's scope; the incoming lexical vector is a prefix of the
outgoing one. -/
theorem try_apply_prefix (env : Env) :
    ∀ (p : Pattern) (lex : Lex) (v : Value),
      ∃ ext, (Pattern.try_apply env lex p v).2 = lex ++ ext
  | Pattern.ignore, lex, _ => ⟨[], by simp [Pattern.try_apply]⟩
  | Pattern.bind, lex, v => ⟨[v], by simp [Pattern.try_apply]⟩
  | Pattern.exact _, lex, _ => ⟨[], by simp [Pattern.try_apply]⟩
  | Pattern.lexical _, lex, _ => ⟨[], by simp [Pattern.try_apply]⟩
  | Pattern.global _, lex, _ => ⟨[], by simp [Pattern.try_apply]⟩
  | Pattern.list ps, lex, v => by
    rcases v with s | i | f | vs | e
    · exact ⟨[], by simp [Pattern.try_apply]⟩
    · exact ⟨[], by simp [Pattern.try_apply]⟩
    · exact ⟨[], by simp [Pattern.try_apply]⟩
    · simp only [Pattern.try_apply]
      rcases h : ps.length == vs.length with _ | _
      · exact ⟨[], by simp [h]⟩
      · simpa [h] using tryApplyZip_prefix env ps lex vs
    · exact ⟨[], by simp [Pattern.try_apply]⟩

/-- tryApplyZip_prefix: zipped pattern application only pushes new
slots above the caller's scope. -/
theorem tryApplyZip_prefix (env : Env) :
    ∀ (ps : List Pattern) (lex : Lex) (vs : List Value),
      ∃ ext, (tryApplyZip env lex ps vs).2 = lex ++ ext
  | [], lex, _ => ⟨[], by simp [tryApplyZip]⟩
  | _ :: _, lex, [] => ⟨[], by simp [tryApplyZip]⟩
  | p :: ps, lex, v :: vs => by
    simp only [tryApplyZip]
    rcases h1 : Pattern.try_apply env lex p v with ⟨b, lex1⟩
    have hp := try_apply_prefix env p lex v
    rw [h1] at hp
    rcases hp with ⟨e1, he1⟩
    rcases b with _ | _
    · exact ⟨e1, by simpa using he1⟩
    · rcases tryApplyZip_prefix env ps lex1 vs with ⟨e2, he2⟩
      simp only at he1
      subst he1
      exact ⟨e1 ++ e2, by simp [he2, List.append_assoc]⟩

end

/-- seqLoop_lex: the sequence loop hands back the lexical vector
unchanged when its evaluator does. -/
theorem seqLoop_lex (ev : Ev) (cx : Cx) (hev : LexPreserving ev) :
    ∀ (nodes : List Node) (lex : Lex) (st : St),
      (seqLoop ev cx nodes lex st).2.1 = lex := by
  intro nodes
  induction nodes with
  | nil => intro lex st; simp [seqLoop]
  | cons n rest ih =>
    intro lex st
    simp only [seqLoop]
    rcases h : ev cx n lex st with ⟨o, lex1, st1⟩
    have h1 : lex1 = lex := by have := hev cx n lex st; rw [h] at this; exact this
    subst h1
    by_cases ho : o.is_non_success = true <;> simp [ho, ih]

/-- selLoop_lex: the selection loop hands back the lexical vector
unchanged when its evaluator does. -/
theorem selLoop_lex (ev : Ev) (cx : Cx) (hev : LexPreserving ev) :
    ∀ (nodes : List Node) (lex : Lex) (st : St),
      (selLoop ev cx nodes lex st).2.1 = lex := by
  intro nodes
  induction nodes with
  | nil => intro lex st; simp [selLoop]
  | cons n rest ih =>
    intro lex st
    simp only [selLoop]
    rcases h : ev cx n lex st with ⟨o, lex1, st1⟩
    have h1 : lex1 = lex := by have := hev cx n lex st; rw [h] at this; exact this
    subst h1
    by_cases ho : o.is_non_failure = true <;> simp [ho, ih]

/-- noneLoop_lex: the none loop hands back the lexical vector
unchanged when its evaluator does. -/
theorem noneLoop_lex (ev : Ev) (cx : Cx) (hev : LexPreserving ev) :
    ∀ (nodes : List Node) (lex : Lex) (st : St),
      (noneLoop ev cx nodes lex st).2.1 = lex := by
  intro nodes
  induction nodes with
  | nil => intro lex st; simp [noneLoop]
  | cons n rest ih =>
    intro lex st
    simp only [noneLoop]
    rcases h : ev cx n lex st with ⟨o, lex1, st1⟩
    have h1 : lex1 = lex := by have := hev cx n lex st; rw [h] at this; exact this
    subst h1
    by_cases ho : o.is_non_failure = true <;> simp [ho, ih]

/-- visitLoop_lex: the visit loop hands back the lexical vector
unchanged when its evaluator does. -/
theorem visitLoop_lex (ev : Ev) (cx : Cx) (hev : LexPreserving ev) :
    ∀ (nodes : List Node) (lex : Lex) (st : St),
      (visitLoop ev cx nodes lex st).2.1 = lex := by
  intro nodes
  induction nodes with
  | nil => intro lex st; simp [visitLoop]
  | cons n rest ih =>
    intro lex st
    simp only [visitLoop]
    rcases h : ev cx n lex st with ⟨o, lex1, st1⟩
    have h1 : lex1 = lex := by have := hev cx n lex st; rw [h] at this; exact this
    subst h1
    simp [ih]

/-- dispatchBranches_lex: every dispatch combinator hands back the
lexical vector unchanged when its evaluator does. -/
theorem dispatchBranches_lex (ev : Ev) (cx : Cx) (d : Dispatch)
    (nodes : List Node) (lex : Lex) (st : St) (hev : LexPreserving ev) :
    (dispatchBranches ev cx d nodes lex st).2.1 = lex := by
  rcases d
  · exact seqLoop_lex ev cx hev nodes lex st
  · exact selLoop_lex ev cx hev nodes lex st
  · exact noneLoop_lex ev cx hev nodes lex st
  · exact visitLoop_lex ev cx hev nodes lex st

/-- evalSequence_lex: body sequences hand back the lexical vector
unchanged when their evaluator does. -/
theorem evalSequence_lex (ev : Ev) (cx : Cx) (nodes : List Node)
    (lex : Lex) (st : St) (hev : LexPreserving ev) :
    (evalSequence ev cx lex nodes st).2.1 = lex :=
  seqLoop_lex ev cx hev nodes lex st

/-- qseqLoop_take: the sequence query loop keeps the saved scope
prefix intact. -/
theorem qseqLoop_take (ev : Ev) (cx : Cx) (env : Env) (lexLen : Nat)
    (pattern : Pattern) (branches : List Node) (lex : Lex)
    (hlen : lex.length = lexLen) (hev : LexPreserving ev) :
    ∀ (values : List Value) (l : Lex) (st : St), l.take lexLen = lex →
      ((qseqLoop ev cx env lexLen pattern branches values l st).2.1).take
          lexLen = lex := by
  intro values
  induction values with
  | nil => intro l st h; simpa [qseqLoop] using h
  | cons v vs ih =>
    intro l st h
    simp only [qseqLoop]
    rcases hap : Pattern.try_apply env (l.take lexLen) pattern v with ⟨b, lex1⟩
    have hp := try_apply_prefix env pattern (l.take lexLen) v
    rw [hap] at hp
    rcases hp with ⟨e1, he1⟩
    simp only at he1
    have htake : lex1.take lexLen = lex := by
      rw [he1, h, ← hlen]
      exact List.take_left lex e1
    rcases b with _ | _
    · exact ih lex1 st htake
    · rcases hseq : evalSequence ev cx lex1 branches st with ⟨o, lex2, st1⟩
      have h2 : lex2 = lex1 := by
        have := evalSequence_lex ev cx branches lex1 st hev
        rw [hseq] at this
        exact this
      subst h2
      by_cases ho : o.is_non_success = true <;>
        simp [hseq, ho, htake, ih _ st1 htake]

/-- qselLoop_take: the selection query loop keeps the saved scope
prefix intact. -/
theorem qselLoop_take (ev : Ev) (cx : Cx) (env : Env) (lexLen : Nat)
    (pattern : Pattern) (branches : List Node) (lex : Lex)
    (hlen : lex.length = lexLen) (hev : LexPreserving ev) :
    ∀ (values : List Value) (l : Lex) (st : St), l.take lexLen = lex →
      ((qselLoop ev cx env lexLen pattern branches values l st).2.1).take
          lexLen = lex := by
  intro values
  induction values with
  | nil => intro l st h; simpa [qselLoop] using h
  | cons v vs ih =>
    intro l st h
    simp only [qselLoop]
    rcases hap : Pattern.try_apply env (l.take lexLen) pattern v with ⟨b, lex1⟩
    have hp := try_apply_prefix env pattern (l.take lexLen) v
    rw [hap] at hp
    rcases hp with ⟨e1, he1⟩
    simp only at he1
    have htake : lex1.take lexLen = lex := by
      rw [he1, h, ← hlen]
      exact List.take_left lex e1
    rcases b with _ | _
    · exact ih lex1 st htake
    · rcases hseq : evalSequence ev cx lex1 branches st with ⟨o, lex2, st1⟩
      have h2 : lex2 = lex1 := by
        have := evalSequence_lex ev cx branches lex1 st hev
        rw [hseq] at this
        exact this
      subst h2
      by_cases ho : o.is_non_failure = true <;>
        simp [hseq, ho, htake, ih _ st1 htake]

/-- qfirstLoop_take: the first-match query loop keeps the saved scope
prefix intact. -/
theorem qfirstLoop_take (ev : Ev) (cx : Cx) (env : Env) (lexLen : Nat)
    (pattern : Pattern) (branches : List Node) (lex : Lex)
    (hlen : lex.length = lexLen) (hev : LexPreserving ev) :
    ∀ (values : List Value) (l : Lex) (st : St), l.take lexLen = lex →
      ((qfirstLoop ev cx env lexLen pattern branches values l st).2.1).take
          lexLen = lex := by
  intro values
  induction values with
  | nil => intro l st h; simpa [qfirstLoop] using h
  | cons v vs ih =>
    intro l st h
    simp only [qfirstLoop]
    rcases hap : Pattern.try_apply env (l.take lexLen) pattern v with ⟨b, lex1⟩
    have hp := try_apply_prefix env pattern (l.take lexLen) v
    rw [hap] at hp
    rcases hp with ⟨e1, he1⟩
    simp only at he1
    have htake : lex1.take lexLen = lex := by
      rw [he1, h, ← hlen]
      exact List.take_left lex e1
    rcases b with _ | _
    · exact ih lex1 st htake
    · rcases hseq : evalSequence ev cx lex1 branches st with ⟨o, lex2, st1⟩
      have h2 : lex2 = lex1 := by
        have := evalSequence_lex ev cx branches lex1 st hev
        rw [hseq] at this
        exact this
      subst h2
      simp [hseq, htake]

/-- qlastLoop_take: the last-match query loop keeps the saved scope
prefix intact. -/
theorem qlastLoop_take (ev : Ev) (cx : Cx) (env : Env) (lexLen : Nat)
    (pattern : Pattern) (branches : List Node) (lex : Lex)
    (hlen : lex.length = lexLen) (hev : LexPreserving ev) :
    ∀ (values : List Value) (last : Outcome) (l : Lex) (st : St),
      l.take lexLen = lex →
      ((qlastLoop ev cx env lexLen pattern branches last values l st).2.1).take
          lexLen = lex := by
  intro values
  induction values with
  | nil => intro last l st h; simpa [qlastLoop] using h
  | cons v vs ih =>
    intro last l st h
    simp only [qlastLoop]
    rcases hap : Pattern.try_apply env (l.take lexLen) pattern v with ⟨b, lex1⟩
    have hp := try_apply_prefix env pattern (l.take lexLen) v
    rw [hap] at hp
    rcases hp with ⟨e1, he1⟩
    simp only at he1
    have htake : lex1.take lexLen = lex := by
      rw [he1, h, ← hlen]
      exact List.take_left lex e1
    rcases b with _ | _
    · exact ih last lex1 st htake
    · rcases hseq : evalSequence ev cx lex1 branches st with ⟨o, lex2, st1⟩
      have h2 : lex2 = lex1 := by
        have := evalSequence_lex ev cx branches lex1 st hev
        rw [hseq] at this
        exact this
      subst h2
      simp [hseq, ih o _ st1 htake]

/-- qvisitLoop_take: the visit query loop keeps the saved scope prefix
intact. -/
theorem qvisitLoop_take (ev : Ev) (cx : Cx) (env : Env) (lexLen : Nat)
    (pattern : Pattern) (branches : List Node) (lex : Lex)
    (hlen : lex.length = lexLen) (hev : LexPreserving ev) :
    ∀ (values : List Value) (l : Lex) (st : St), l.take lexLen = lex →
      ((qvisitLoop ev cx env lexLen pattern branches values l st).2.1).take
          lexLen = lex := by
  intro values
  induction values with
  | nil => intro l st h; simpa [qvisitLoop] using h
  | cons v vs ih =>
    intro l st h
    simp only [qvisitLoop]
    rcases hap : Pattern.try_apply env (l.take lexLen) pattern v with ⟨b, lex1⟩
    have hp := try_apply_prefix env pattern (l.take lexLen) v
    rw [hap] at hp
    rcases hp with ⟨e1, he1⟩
    simp only at he1
    have htake : lex1.take lexLen = lex := by
      rw [he1, h, ← hlen]
      exact List.take_left lex e1
    rcases b with _ | _
    · exact ih lex1 st htake
    · rcases hseq : evalSequence ev cx lex1 branches st with ⟨o, lex2, st1⟩
      have h2 : lex2 = lex1 := by
        have := evalSequence_lex ev cx branches lex1 st hev
        rw [hseq] at this
        exact this
      subst h2
      simp [hseq, ih _ st1 htake]

/-- eval_query_lex: query iteration truncates the lexical vector back
to the caller's scope on exit, for every mode. -/
theorem eval_query_lex (mode : QueryMode) (ev : Ev) (cx : Cx) (env : Env)
    (lex : Lex) (index : Nat) (arguments : List Value) (pattern : Pattern)
    (branches : List Node) (st : St) (hev : LexPreserving ev) :
    (mode.eval_query ev cx env lex index arguments pattern branches st).2.1
      = lex := by
  have hstart : lex.take lex.length = lex := List.take_length lex
  rcases mode
  · simpa [QueryMode.eval_query] using
      qseqLoop_take ev cx env lex.length pattern branches lex rfl hev
        (env.ids.getQuery index arguments) lex st hstart
  · simpa [QueryMode.eval_query] using
      qselLoop_take ev cx env lex.length pattern branches lex rfl hev
        (env.ids.getQuery index arguments) lex st hstart
  · simpa [QueryMode.eval_query] using
      qfirstLoop_take ev cx env lex.length pattern branches lex rfl hev
        (env.ids.getQuery index arguments) lex st hstart
  · simpa [QueryMode.eval_query] using
      qlastLoop_take ev cx env lex.length pattern branches lex rfl hev
        (env.ids.getQuery index arguments) Outcome.failure lex st hstart
  · simpa [QueryMode.eval_query] using
      qvisitLoop_take ev cx env lex.length pattern branches lex rfl hev
        (env.ids.getQuery index arguments) lex st hstart

/-- checkAnyLoop_lex: the check-any scan hands back the lexical vector
unchanged when its evaluator does. -/
theorem checkAnyLoop_lex (ev : Ev) (cx : Cx) (hev : LexPreserving ev) :
    ∀ (nodes : List Node) (lex : Lex) (st : St),
      (checkAnyLoop ev cx nodes lex st).2.1 = lex := by
  intro nodes
  induction nodes with
  | nil => intro lex st; simp [checkAnyLoop]
  | cons n rest ih =>
    intro lex st
    simp only [checkAnyLoop]
    rcases h : ev cx n lex st with ⟨o, lex1, st1⟩
    have h1 : lex1 = lex := by have := hev cx n lex st; rw [h] at this; exact this
    subst h1
    by_cases ho : o.is_success = true <;> simp [ho, ih]

/-- randomLoop_lex: the random popping loop hands back the lexical
vector unchanged when its evaluator does. -/
theorem randomLoop_lex (ev : Ev) (cx : Cx) (checkAny : Bool)
    (hev : LexPreserving ev) :
    ∀ (nodes : List Node) (lex : Lex) (st : St),
      (randomLoop ev cx checkAny nodes lex st).2.1 = lex := by
  intro nodes
  induction nodes with
  | nil => intro lex st; simp [randomLoop]
  | cons n rest ih =>
    intro lex st
    simp only [randomLoop]
    rcases h : ev cx n lex st with ⟨o, lex1, st1⟩
    have h1 : lex1 = lex := by have := hev cx n lex st; rw [h] at this; exact this
    subst h1
    by_cases ho : o.is_success = true
    · simp [ho]
    · by_cases ha : o.is_action = true
      · rcases checkAny with _ | _
        · simp [ho, ha]
        · rcases hc : checkAnyLoop ev cx rest.reverse lex1 st1 with ⟨b, lex2, st2⟩
          have h2 : lex2 = lex1 := by
            have := checkAnyLoop_lex ev cx hev rest.reverse lex1 st1
            rw [hc] at this
            exact this
          subst h2
          rcases b with _ | _ <;> simp [ho, ha, hc]
      · simp [ho, ha, ih]

/-- condLoop_lex: the cond loop hands back the lexical vector
unchanged when its evaluator does. -/
theorem condLoop_lex (ev : Ev) (cx : Cx) (elseBranch : Option Node)
    (hev : LexPreserving ev) :
    ∀ (branches : List (Node × Node)) (lex : Lex) (st : St),
      (condLoop ev cx elseBranch branches lex st).2.1 = lex := by
  intro branches
  induction branches with
  | nil =>
    intro lex st
    rcases elseBranch with _ | e
    · simp [condLoop]
    · simp only [condLoop]
      exact hev cx e lex st
  | cons hd rest ih =>
    intro lex st
    rcases hd with ⟨g, b⟩
    simp only [condLoop]
    rcases h : ev cx g lex st with ⟨o, lex1, st1⟩
    have h1 : lex1 = lex := by have := hev cx g lex st; rw [h] at this; exact this
    subst h1
    rcases o with _ | _ | a
    · exact hev cx b lex1 st1
    · simp [ih]
    · simp

/-- node_eval_lex_preserving: the fueled node evaluator always hands
back the lexical vector exactly as it received it. -/
theorem node_eval_lex_preserving (env : Env) :
    ∀ fuel : Nat, LexPreserving (Node.eval env fuel) := by
  intro fuel
  induction fuel with
  | zero => intro cx node lex st; simp [Node.eval]
  | succ f ih =>
    intro cx node lex st
    rcases node with _ | _ | ⟨d, branches⟩ | ⟨r, mode, args⟩
      | ⟨pattern, index, args, mode, branches⟩
      | ⟨values, patterns, branches⟩
      | ⟨seed, ctxSeeds, branches, checkAny⟩
      | ⟨branches, elseBranch⟩
    · simp [Node.eval]
    · simp [Node.eval]
    · simpa [Node.eval] using
        dispatchBranches_lex (Node.eval env f) cx d branches lex st ih
    · simp [Node.eval]
    · simpa [Node.eval] using
        eval_query_lex mode (Node.eval env f) cx env lex index
          (reifyValues env lex args) pattern branches st ih
    · simp only [Node.eval]
      rcases hz : tryApplyZip env lex patterns (reifyValues env lex values)
        with ⟨b, lex1⟩
      have hp := tryApplyZip_prefix env patterns lex (reifyValues env lex values)
      rw [hz] at hp
      rcases hp with ⟨e1, he1⟩
      simp only at he1
      subst he1
      rcases b with _ | _
      · simp [List.take_left]
      · rcases hseq : evalSequence (Node.eval env f) cx (lex ++ e1) branches st
          with ⟨o, lex2, st1⟩
        have h2 : lex2 = lex ++ e1 := by
          have := evalSequence_lex (Node.eval env f) cx branches (lex ++ e1) st ih
          rw [hseq] at this
          exact this
        subst h2
        simp [hseq, List.take_left]
    · simpa [Node.eval] using
        randomLoop_lex (Node.eval env f) cx checkAny ih
          (env.shuffle (effSeed env seed ctxSeeds) branches).reverse lex st
    · simpa [Node.eval] using
        condLoop_lex (Node.eval env f) cx elseBranch ih branches lex st

/-- C10: for every IR node, every fuel and every evaluation context,
`Node::eval` hands the lexical slot vector back exactly as it received
it — the pre-call length is restored and the values of all pre-existing
slots are unmodified (Match and Query scopes truncate on both normal
and early exit) — and pattern application only pushes new slots above
the caller's scope: the incoming lexical vector is a prefix of the
outgoing one. -/
theorem node_eval_restores_lexicals (env : Env) :
    (∀ (fuel : Nat) (cx : Cx) (node : Node) (lex : Lex) (st : St),
      (Node.eval env fuel cx node lex st).2.1 = lex)
    ∧ (∀ (p : Pattern) (lex : Lex) (v : Value),
      ∃ ext, (Pattern.try_apply env lex p v).2 = lex ++ ext) :=
  ⟨fun fuel => node_eval_lex_preserving env fuel,
    fun p lex v => try_apply_prefix env p lex v⟩

/-- to_inactive_if_active_inactive: the inactive version of any context
shape is inactive. -/
theorem to_inactive_if_active_inactive (cx : Cx) :
    (cx.to_inactive_if_active).is_active = false := by
  rcases cx with b | f
  · rcases b <;> rfl
  · rfl

/-- refMode_apply_inactive: applying a reference mode to an inactive
context keeps it inactive. -/
theorem refMode_apply_inactive (mode : RefMode) (cx : Cx)
    (h : cx.is_active = false) : (mode.apply cx).is_active = false := by
  rcases mode
  · exact to_inactive_if_active_inactive cx
  · exact h

/-- CacheOK_insert: inserting a line that satisfies the invariant
preserves it. -/
theorem CacheOK_insert (lru : List CacheLine) (cl : CacheLine)
    (hok : CacheOK lru)
    (hcl : cl.is_active = false → cl.outcome.is_action = false) :
    CacheOK (cacheInsert lru cl) := by
  intro x hx hact
  have hx1 : x ∈ cl :: lru := List.take_subset _ _ hx
  rcases hx1 with _ | hx2
  · exact hcl hact
  · exact hok x (by assumption) hact

/-- CacheOK_replaceOrInsert: replacing or inserting a line that
satisfies the invariant preserves it. -/
theorem CacheOK_replaceOrInsert (lru : List CacheLine) (cl : CacheLine)
    (hok : CacheOK lru)
    (hcl : cl.is_active = false → cl.outcome.is_action = false) :
    CacheOK (cacheReplaceOrInsert lru cl) := by
  simp only [cacheReplaceOrInsert]
  rcases h : cacheFind lru cl.index cl.arguments cl.is_active with _ | i
  · exact CacheOK_insert lru cl hok hcl
  · intro x hx hact
    rcases hx with _ | hx2
    · exact hcl hact
    · exact hok x (List.eraseIdx_subset lru i (by assumption)) hact

/-- cacheFind_found: a successful cache lookup points at a line with
the requested activeness. -/
theorem cacheFind_found (index : RefIdx) (arguments : List Value)
    (is_active : Bool) :
    ∀ (lru : List CacheLine) (i : Nat),
      cacheFind lru index arguments is_active = some i →
      ∃ cl, lru.get? i = some cl ∧ cl.is_active = is_active := by
  intro lru
  induction lru with
  | nil => intro i h; simp [cacheFind] at h
  | cons hd tl ih =>
    intro i h
    simp only [cacheFind, List.findIdx?_cons] at h
    by_cases hp : (hd.index == index && hd.is_active == is_active
        && valueEqList hd.arguments arguments) = true
    · rw [if_pos hp] at h
      rcases h
      refine ⟨hd, rfl, ?_⟩
      simp only [Bool.and_assoc, Bool.and_eq_true, beq_iff_eq] at hp
      exact hp.2.1
    · rw [if_neg hp] at h
      rcases hrec : cacheFind tl index arguments is_active with _ | j
      all_goals rw [hrec] at h
      · simp at h
      · simp at h
        rcases ih j hrec with ⟨cl, hcl, hact⟩
        refine ⟨cl, ?_, hact⟩
        simp only [← h, List.get?_cons_succ]
        simpa using hcl

/-- cacheGet_nonactivating: an inactive-key cache access whose
computation produces no action and preserves the invariant itself
produces no action and preserves the invariant. -/
theorem cacheGet_nonactivating (index : RefIdx) (arguments : List Value)
    (calcOutcome : St → Outcome × St) (st : St)
    (hcalc : ∀ st', CacheOK st'.cache →
      (calcOutcome st').1.is_action = false
        ∧ CacheOK (calcOutcome st').2.cache)
    (hok : CacheOK st.cache) :
    (cacheGet index arguments false calcOutcome st).1.is_action = false
      ∧ CacheOK (cacheGet index arguments false calcOutcome st).2.cache := by
  rcases hfind : cacheFind st.cache index arguments false with _ | i
  · simp only [cacheGet, hfind]
    have h1 : CacheOK (cacheInsert st.cache
        ⟨index, false, arguments, Outcome.failure⟩) :=
      CacheOK_insert _ _ hok (fun _ => rfl)
    have h2 := hcalc
      { st with cache :=
          cacheInsert st.cache ⟨index, false, arguments, Outcome.failure⟩ } h1
    exact ⟨h2.1, CacheOK_replaceOrInsert _ _ h2.2 (fun _ => h2.1)⟩
  · rcases hget : st.cache.get? i with _ | cl
    · simp only [cacheGet, hfind, hget]
      exact ⟨rfl, hok⟩
    · simp only [cacheGet, hfind, hget]
      rcases cacheFind_found index arguments false st.cache i hfind
        with ⟨cl', hcl', hact⟩
      rw [hget] at hcl'
      rcases hcl'
      have hmem : cl ∈ st.cache := List.get?_mem hget
      have hno : cl.outcome.is_action = false := hok cl hmem hact
      refine ⟨hno, ?_⟩
      exact CacheOK_insert _ _
        (fun x hx hactx => hok x (List.eraseIdx_subset _ _ hx) hactx)
        (fun _ => hno)

/-- runEffects_cache: effect materialization never touches the
cache. -/
theorem runEffects_cache (env : Env) (lex : Lex) :
    ∀ (es : List (Nat × List ProtoValue)) (st : St),
      (runEffects env lex es st).2.cache = st.cache := by
  intro es
  induction es with
  | nil => intro st; simp [runEffects]
  | cons e rest ih =>
    intro st
    simp only [runEffects]
    rcases env.ids.getEffect e.1 (reifyValues env lex e.2) with _ | eff
    · rfl
    · rcases hrec : runEffects env lex rest
          { st with calls := st.calls ++ [(e.1, reifyValues env lex e.2)] }
        with ⟨oo, st2⟩
      have := ih { st with calls := st.calls ++ [(e.1, reifyValues env lex e.2)] }
      rw [hrec] at this
      rcases oo with _ | effs <;> simpa [hrec] using this

/-- seqLoop_na: the sequence loop in an inactive context yields no
action and preserves the cache invariant. -/
theorem seqLoop_na (ev : Ev) (cx : Cx) (hev : NonActivating ev)
    (hcx : cx.is_active = false) :
    ∀ (nodes : List Node) (lex : Lex) (st : St), CacheOK st.cache →
      (seqLoop ev cx nodes lex st).1.is_action = false
        ∧ CacheOK (seqLoop ev cx nodes lex st).2.2.cache := by
  intro nodes
  induction nodes with
  | nil => intro lex st hok; exact ⟨rfl, hok⟩
  | cons n rest ih =>
    intro lex st hok
    simp only [seqLoop]
    rcases h : ev cx n lex st with ⟨o, lex1, st1⟩
    have hev1 := hev cx n lex st hcx hok
    rw [h] at hev1
    by_cases ho : o.is_non_success = true
    · simpa [ho] using hev1
    · simpa [ho] using ih lex1 st1 hev1.2

/-- selLoop_na: the selection loop in an inactive context yields no
action and preserves the cache invariant. -/
theorem selLoop_na (ev : Ev) (cx : Cx) (hev : NonActivating ev)
    (hcx : cx.is_active = false) :
    ∀ (nodes : List Node) (lex : Lex) (st : St), CacheOK st.cache →
      (selLoop ev cx nodes lex st).1.is_action = false
        ∧ CacheOK (selLoop ev cx nodes lex st).2.2.cache := by
  intro nodes
  induction nodes with
  | nil => intro lex st hok; exact ⟨rfl, hok⟩
  | cons n rest ih =>
    intro lex st hok
    simp only [selLoop]
    rcases h : ev cx n lex st with ⟨o, lex1, st1⟩
    have hev1 := hev cx n lex st hcx hok
    rw [h] at hev1
    by_cases ho : o.is_non_failure = true
    · simpa [ho] using hev1
    · simpa [ho] using ih lex1 st1 hev1.2

/-- noneLoop_na: the none loop in an inactive context yields no action
and preserves the cache invariant. -/
theorem noneLoop_na (ev : Ev) (cx : Cx) (hev : NonActivating ev)
    (hcx : cx.is_active = false) :
    ∀ (nodes : List Node) (lex : Lex) (st : St), CacheOK st.cache →
      (noneLoop ev cx nodes lex st).1.is_action = false
        ∧ CacheOK (noneLoop ev cx nodes lex st).2.2.cache := by
  intro nodes
  induction nodes with
  | nil => intro lex st hok; exact ⟨rfl, hok⟩
  | cons n rest ih =>
    intro lex st hok
    simp only [noneLoop]
    rcases h : ev cx n lex st with ⟨o, lex1, st1⟩
    have hev1 := hev cx n lex st hcx hok
    rw [h] at hev1
    by_cases ho : o.is_non_failure = true
    · simpa [ho] using ⟨rfl, hev1.2⟩
    · simpa [ho] using ih lex1 st1 hev1.2

/-- visitLoop_na: the visit loop in an inactive context yields no
action and preserves the cache invariant. -/
theorem visitLoop_na (ev : Ev) (cx : Cx) (hev : NonActivating ev)
    (hcx : cx.is_active = false) :
    ∀ (nodes : List Node) (lex : Lex) (st : St), CacheOK st.cache →
      (visitLoop ev cx nodes lex st).1.is_action = false
        ∧ CacheOK (visitLoop ev cx nodes lex st).2.2.cache := by
  intro nodes
  induction nodes with
  | nil => intro lex st hok; exact ⟨rfl, hok⟩
  | cons n rest ih =>
    intro lex st hok
    simp only [visitLoop]
    rcases h : ev cx n lex st with ⟨o, lex1, st1⟩
    have hev1 := hev cx n lex st hcx hok
    rw [h] at hev1
    exact ih lex1 st1 hev1.2

/-- dispatchBranches_na: every dispatch combinator in an inactive
context yields no action and preserves the cache invariant. -/
theorem dispatchBranches_na (ev : Ev) (cx : Cx) (d : Dispatch)
    (nodes : List Node) (lex : Lex) (st : St) (hev : NonActivating ev)
    (hcx : cx.is_active = false) (hok : CacheOK st.cache) :
    (dispatchBranches ev cx d nodes lex st).1.is_action = false
      ∧ CacheOK (dispatchBranches ev cx d nodes lex st).2.2.cache := by
  rcases d
  · exact seqLoop_na ev cx hev hcx nodes lex st hok
  · exact selLoop_na ev cx hev hcx nodes lex st hok
  · exact noneLoop_na ev cx hev hcx nodes lex st hok
  · exact visitLoop_na ev cx hev hcx nodes lex st hok

/-- qseqLoop_na: the sequence query loop in an inactive context yields
no action and preserves the cache invariant. -/
theorem qseqLoop_na (ev : Ev) (cx : Cx) (env : Env) (lexLen : Nat)
    (pattern : Pattern) (branches : List Node) (hev : NonActivating ev)
    (hcx : cx.is_active = false) :
    ∀ (values : List Value) (l : Lex) (st : St), CacheOK st.cache →
      (qseqLoop ev cx env lexLen pattern branches values l st).1.is_action
          = false
        ∧ CacheOK
            (qseqLoop ev cx env lexLen pattern branches values l st).2.2.cache := by
  intro values
  induction values with
  | nil => intro l st hok; exact ⟨rfl, hok⟩
  | cons v vs ih =>
    intro l st hok
    simp only [qseqLoop]
    rcases hpa : Pattern.try_apply env (l.take lexLen) pattern v with ⟨b, lex1⟩
    rcases b with _ | _
    · simpa [hpa] using ih lex1 st hok
    · rcases hseq : evalSequence ev cx lex1 branches st with ⟨o, lex2, st1⟩
      have hs : (evalSequence ev cx lex1 branches st).1.is_action = false
          ∧ CacheOK (evalSequence ev cx lex1 branches st).2.2.cache :=
        seqLoop_na ev cx hev hcx branches lex1 st hok
      rw [hseq] at hs
      by_cases ho : o.is_non_success = true
      · simpa [hpa, hseq, ho] using hs
      · simpa [hpa, hseq, ho] using ih lex2 st1 hs.2

/-- qselLoop_na: the selection query loop in an inactive context
yields no action and preserves the cache invariant. -/
theorem qselLoop_na (ev : Ev) (cx : Cx) (env : Env) (lexLen : Nat)
    (pattern : Pattern) (branches : List Node) (hev : NonActivating ev)
    (hcx : cx.is_active = false) :
    ∀ (values : List Value) (l : Lex) (st : St), CacheOK st.cache →
      (qselLoop ev cx env lexLen pattern branches values l st).1.is_action
          = false
        ∧ CacheOK
            (qselLoop ev cx env lexLen pattern branches values l st).2.2.cache := by
  intro values
  induction values with
  | nil => intro l st hok; exact ⟨rfl, hok⟩
  | cons v vs ih =>
    intro l st hok
    simp only [qselLoop]
    rcases hpa : Pattern.try_apply env (l.take lexLen) pattern v with ⟨b, lex1⟩
    rcases b with _ | _
    · simpa [hpa] using ih lex1 st hok
    · rcases hseq : evalSequence ev cx lex1 branches st with ⟨o, lex2, st1⟩
      have hs : (evalSequence ev cx lex1 branches st).1.is_action = false
          ∧ CacheOK (evalSequence ev cx lex1 branches st).2.2.cache :=
        seqLoop_na ev cx hev hcx branches lex1 st hok
      rw [hseq] at hs
      by_cases ho : o.is_non_failure = true
      · simpa [hpa, hseq, ho] using hs
      · simpa [hpa, hseq, ho] using ih lex2 st1 hs.2

/-- qfirstLoop_na: the first-match query loop in an inactive context
yields no action and preserves the cache invariant. -/
theorem qfirstLoop_na (ev : Ev) (cx : Cx) (env : Env) (lexLen : Nat)
    (pattern : Pattern) (branches : List Node) (hev : NonActivating ev)
    (hcx : cx.is_active = false) :
    ∀ (values : List Value) (l : Lex) (st : St), CacheOK st.cache →
      (qfirstLoop ev cx env lexLen pattern branches values l st).1.is_action
          = false
        ∧ CacheOK
            (qfirstLoop ev cx env lexLen pattern branches values l st).2.2.cache := by
  intro values
  induction values with
  | nil => intro l st hok; exact ⟨rfl, hok⟩
  | cons v vs ih =>
    intro l st hok
    simp only [qfirstLoop]
    rcases hpa : Pattern.try_apply env (l.take lexLen) pattern v with ⟨b, lex1⟩
    rcases b with _ | _
    · simpa [hpa] using ih lex1 st hok
    · have hs : (evalSequence ev cx lex1 branches st).1.is_action = false
          ∧ CacheOK (evalSequence ev cx lex1 branches st).2.2.cache :=
        seqLoop_na ev cx hev hcx branches lex1 st hok
      simpa [hpa] using hs

/-- qlastLoop_na: the last-match query loop in an inactive context
yields no action (provided its accumulator is no action) and preserves
the cache invariant. -/
theorem qlastLoop_na (ev : Ev) (cx : Cx) (env : Env) (lexLen : Nat)
    (pattern : Pattern) (branches : List Node) (hev : NonActivating ev)
    (hcx : cx.is_active = false) :
    ∀ (values : List Value) (last : Outcome) (l : Lex) (st : St),
      last.is_action = false → CacheOK st.cache →
      (qlastLoop ev cx env lexLen pattern branches last values l st).1.is_action
          = false
        ∧ CacheOK
            (qlastLoop ev cx env lexLen pattern branches last values
              l st).2.2.cache := by
  intro values
  induction values with
  | nil => intro last l st hlast hok; exact ⟨hlast, hok⟩
  | cons v vs ih =>
    intro last l st hlast hok
    simp only [qlastLoop]
    rcases hpa : Pattern.try_apply env (l.take lexLen) pattern v with ⟨b, lex1⟩
    rcases b with _ | _
    · simpa [hpa] using ih last lex1 st hlast hok
    · rcases hseq : evalSequence ev cx lex1 branches st with ⟨o, lex2, st1⟩
      have hs : (evalSequence ev cx lex1 branches st).1.is_action = false
          ∧ CacheOK (evalSequence ev cx lex1 branches st).2.2.cache :=
        seqLoop_na ev cx hev hcx branches lex1 st hok
      rw [hseq] at hs
      simpa [hpa, hseq] using ih o lex2 st1 hs.1 hs.2

/-- qvisitLoop_na: the visit query loop in an inactive context yields
no action and preserves the cache invariant. -/
theorem qvisitLoop_na (ev : Ev) (cx : Cx) (env : Env) (lexLen : Nat)
    (pattern : Pattern) (branches : List Node) (hev : NonActivating ev)
    (hcx : cx.is_active = false) :
    ∀ (values : List Value) (l : Lex) (st : St), CacheOK st.cache →
      (qvisitLoop ev cx env lexLen pattern branches values l st).1.is_action
          = false
        ∧ CacheOK
            (qvisitLoop ev cx env lexLen pattern branches values l st).2.2.cache := by
  intro values
  induction values with
  | nil => intro l st hok; exact ⟨rfl, hok⟩
  | cons v vs ih =>
    intro l st hok
    simp only [qvisitLoop]
    rcases hpa : Pattern.try_apply env (l.take lexLen) pattern v with ⟨b, lex1⟩
    rcases b with _ | _
    · simpa [hpa] using ih lex1 st hok
    · rcases hseq : evalSequence ev cx lex1 branches st with ⟨o, lex2, st1⟩
      have hs : (evalSequence ev cx lex1 branches st).1.is_action = false
          ∧ CacheOK (evalSequence ev cx lex1 branches st).2.2.cache :=
        seqLoop_na ev cx hev hcx branches lex1 st hok
      rw [hseq] at hs
      simpa [hpa, hseq] using ih lex2 st1 hs.2

/-- eval_query_na: query iteration in an inactive context yields no
action and preserves the cache invariant, for every mode. -/
theorem eval_query_na (mode : QueryMode) (ev : Ev) (cx : Cx) (env : Env)
    (lex : Lex) (index : Nat) (arguments : List Value) (pattern : Pattern)
    (branches : List Node) (st : St) (hev : NonActivating ev)
    (hcx : cx.is_active = false) (hok : CacheOK st.cache) :
    (mode.eval_query ev cx env lex index arguments pattern
        branches st).1.is_action = false
      ∧ CacheOK (mode.eval_query ev cx env lex index arguments pattern
          branches st).2.2.cache := by
  rcases mode
  · simpa [QueryMode.eval_query] using
      qseqLoop_na ev cx env lex.length pattern branches hev hcx
        (env.ids.getQuery index arguments) lex st hok
  · simpa [QueryMode.eval_query] using
      qselLoop_na ev cx env lex.length pattern branches hev hcx
        (env.ids.getQuery index arguments) lex st hok
  · simpa [QueryMode.eval_query] using
      qfirstLoop_na ev cx env lex.length pattern branches hev hcx
        (env.ids.getQuery index arguments) lex st hok
  · simpa [QueryMode.eval_query] using
      qlastLoop_na ev cx env lex.length pattern branches hev hcx
        (env.ids.getQuery index arguments) Outcome.failure lex st rfl hok
  · simpa [QueryMode.eval_query] using
      qvisitLoop_na ev cx env lex.length pattern branches hev hcx
        (env.ids.getQuery index arguments) lex st hok

/-- randomLoop_na: the random popping loop in an inactive context
yields no action and preserves the cache invariant (the `check_any`
scan is unreachable because no branch can produce an action). -/
theorem randomLoop_na (ev : Ev) (cx : Cx) (checkAny : Bool)
    (hev : NonActivating ev) (hcx : cx.is_active = false) :
    ∀ (nodes : List Node) (lex : Lex) (st : St), CacheOK st.cache →
      (randomLoop ev cx checkAny nodes lex st).1.is_action = false
        ∧ CacheOK (randomLoop ev cx checkAny nodes lex st).2.2.cache := by
  intro nodes
  induction nodes with
  | nil => intro lex st hok; exact ⟨rfl, hok⟩
  | cons n rest ih =>
    intro lex st hok
    simp only [randomLoop]
    rcases h : ev cx n lex st with ⟨o, lex1, st1⟩
    have hev1 := hev cx n lex st hcx hok
    rw [h] at hev1
    by_cases ho : o.is_success = true
    · simpa [ho] using hev1
    · simp [ho, hev1.1]
      simpa using ih lex1 st1 hev1.2

/-- condLoop_na: the cond loop in an inactive context yields no action
and preserves the cache invariant (guards cannot produce actions
there). -/
theorem condLoop_na (ev : Ev) (cx : Cx) (elseBranch : Option Node)
    (hev : NonActivating ev) (hcx : cx.is_active = false) :
    ∀ (branches : List (Node × Node)) (lex : Lex) (st : St),
      CacheOK st.cache →
      (condLoop ev cx elseBranch branches lex st).1.is_action = false
        ∧ CacheOK (condLoop ev cx elseBranch branches lex st).2.2.cache := by
  intro branches
  induction branches with
  | nil =>
    intro lex st hok
    rcases elseBranch with _ | e
    · exact ⟨rfl, hok⟩
    · simpa [condLoop] using hev cx e lex st hcx hok
  | cons hd rest ih =>
    intro lex st hok
    rcases hd with ⟨g, b⟩
    simp only [condLoop]
    rcases h : ev cx g lex st with ⟨o, lex1, st1⟩
    have hev1 := hev cx g lex st hcx hok
    rw [h] at hev1
    rcases o with _ | _ | a
    · exact hev cx b lex1 st1 hcx hev1.2
    · exact ih lex1 st1 hev1.2
    · exact absurd hev1.1 (by simp [Outcome.is_action])

/-- outcomeOfBool_not_action: a boolean handler outcome is never an
action. -/
theorem outcomeOfBool_not_action (b : Bool) :
    (outcomeOfBool b).is_action = false := by
  rcases b <;> rfl

/-- ctxAction_inactive: the single `ctx.action` production site coerces
the action to failure in an inactive eval context and to
success/failure in a discovery context, and never touches the cache. -/
theorem ctxAction_inactive (cx : Cx) (a : Action) (st : St)
    (hcx : cx.is_active = false) :
    (ctxAction cx a st).1.is_action = false
      ∧ (ctxAction cx a st).2.cache = st.cache := by
  rcases cx with b | f
  · rcases b
    · exact ⟨rfl, rfl⟩
    · exact absurd hcx (by simp [Cx.is_active])
  · simp only [ctxAction]
    split
    · exact ⟨rfl, rfl⟩
    · exact ⟨rfl, rfl⟩

/-- inheritLoop_na: the inherit loop run by a non-activating evaluator
in an inactive context preserves the cache invariant. -/
theorem inheritLoop_na (ev : Ev) (cx : Cx) (hev : NonActivating ev)
    (hcx : cx.is_active = false) :
    ∀ (nodes : List Node) (lex : Lex) (st : St), CacheOK st.cache →
      CacheOK (inheritLoop ev cx nodes lex st).2.2.cache := by
  intro nodes
  induction nodes with
  | nil => intro lex st hok; exact hok
  | cons n rest ih =>
    intro lex st hok
    simp only [inheritLoop]
    rcases h : ev cx n lex st with ⟨o, lex1, st1⟩
    have hev1 := hev cx n lex st hcx hok
    rw [h] at hev1
    by_cases ho : o.is_failure = true
    · simpa [ho] using hev1.2
    · simpa [ho] using ih lex1 st1 hev1.2

/-- ActionRoot_eval_na: evaluating an action root in an inactive
context yields no action outcome (`ctx.action` coerces it away) and
preserves the cache invariant. -/
theorem ActionRoot_eval_na (ev : Ev) (env : Env) (cx : Cx)
    (root : ActionRoot) (arguments : List Value) (st : St)
    (hev : NonActivating ev) (hcx : cx.is_active = false)
    (hok : CacheOK st.cache) :
    (ActionRoot.eval ev env cx root arguments st).1.is_action = false
      ∧ CacheOK (ActionRoot.eval ev env cx root arguments st).2.cache := by
  simp only [ActionRoot.eval]
  rcases hseq : evalSequence ev cx.to_inactive_if_active arguments
      root.conditions st with ⟨condOutcome, lex1, st1⟩
  have hs : (evalSequence ev cx.to_inactive_if_active arguments
        root.conditions st).1.is_action = false
      ∧ CacheOK (evalSequence ev cx.to_inactive_if_active arguments
          root.conditions st).2.2.cache :=
    seqLoop_na ev cx.to_inactive_if_active hev
      (to_inactive_if_active_inactive cx) root.conditions arguments st hok
  rw [hseq] at hs
  by_cases hc : condOutcome.is_success = true
  · rcases hre : runEffects env lex1 root.effects st1 with ⟨oeff, st2⟩
    have h2 : st2.cache = st1.cache := by
      have h3 := runEffects_cache env lex1 root.effects st1
      rw [hre] at h3
      exact h3
    have hok2 : CacheOK st2.cache := h2 ▸ hs.2
    rcases oeff with _ | effects
    · simpa [hc, hre, Outcome.is_action] using hok2
    · rcases hin : inheritLoop ev (Cx.discovery none) root.inherit lex1
        { st2 with emitted := [] } with ⟨flag, lexX, st3⟩
      have hok3 : CacheOK st3.cache := by
        have h4 := inheritLoop_na ev (Cx.discovery none) hev rfl
          root.inherit lex1 { st2 with emitted := [] } hok2
        rw [hin] at h4
        exact h4
      rcases flag with _ | _
      · have hca := ctxAction_inactive cx
          ⟨root.index.getD 0, arguments,
            effects ++ (st3.emitted.map Action.effects).flatten⟩
          { st3 with emitted := st2.emitted } hcx
        simp only [hc, hre, hin]
        simp only [Bool.not_true, Bool.false_eq_true, if_false]
        exact ⟨hca.1, by rw [hca.2]; exact hok3⟩
      · simp only [hc, hre, hin]
        simp only [Bool.not_true, Bool.false_eq_true, if_false]
        exact ⟨rfl, hok3⟩
  · have hc' : condOutcome.is_success = false := by
      rcases h : condOutcome.is_success
      · rfl
      · exact absurd h hc
    simpa [hc', Outcome.is_action] using hs.2

/-- NodeRoot_eval_na: evaluating a node root with a non-activating
evaluator in an inactive context yields no action and preserves the
cache invariant. -/
theorem NodeRoot_eval_na (ev : Ev) (cx : Cx) (root : NodeRoot)
    (arguments : List Value) (st : St) (hev : NonActivating ev)
    (hcx : cx.is_active = false) (hok : CacheOK st.cache) :
    (NodeRoot.eval ev cx root arguments st).1.is_action = false
      ∧ CacheOK (NodeRoot.eval ev cx root arguments st).2.cache := by
  simp only [NodeRoot.eval]
  rcases h : ev cx root.node arguments st with ⟨o, lex1, st1⟩
  have hev1 := hev cx root.node arguments st hcx hok
  rw [h] at hev1
  exact hev1

/-- RefIdx_eval_na: a cached reference evaluation in an inactive
context yields no action — the cache key records the inactive mode and
`cacheGet` only stores non-action outcomes under it — and preserves
the cache invariant. -/
theorem RefIdx_eval_na (ev : Ev) (env : Env) (cx : Cx) (r : RefIdx)
    (mode : RefMode) (arguments : List Value) (st : St)
    (hev : NonActivating ev) (hcx : cx.is_active = false)
    (hok : CacheOK st.cache) :
    (RefIdx.eval ev env cx r mode arguments st).1.is_action = false
      ∧ CacheOK (RefIdx.eval ev env cx r mode arguments st).2.cache := by
  have hcx1 : (mode.apply cx).is_active = false :=
    refMode_apply_inactive mode cx hcx
  rcases r with index | index | index
  · simp only [RefIdx.eval]
    rw [hcx1]
    exact cacheGet_nonactivating _ arguments _ st
      (fun st' hok' => ActionRoot_eval_na ev env (mode.apply cx)
        (env.ids.getAction index) arguments st' hev hcx1 hok') hok
  · simp only [RefIdx.eval]
    rw [hcx1]
    exact cacheGet_nonactivating _ arguments _ st
      (fun st' hok' => NodeRoot_eval_na ev (mode.apply cx)
        (env.ids.getNode index) arguments st' hev hcx1 hok') hok
  · simp only [RefIdx.eval]
    rw [hcx1]
    exact cacheGet_nonactivating _ arguments _ st
      (fun st' hok' => ⟨outcomeOfBool_not_action _, hok'⟩) hok

/-- node_eval_nonactivating: for every fuel, `Node::eval` is a
non-activating evaluator — in an inactive context with a well-formed
cache it never produces an action outcome and keeps the cache
well-formed. -/
theorem node_eval_nonactivating (env : Env) :
    ∀ fuel : Nat, NonActivating (Node.eval env fuel) := by
  intro fuel
  induction fuel with
  | zero => intro cx node lex st hcx hok; exact ⟨rfl, hok⟩
  | succ f ih =>
    intro cx node lex st hcx hok
    rcases node with _ | _ | ⟨d, branches⟩ | ⟨r, mode, args⟩
      | ⟨pattern, index, args, mode, branches⟩
      | ⟨values, patterns, branches⟩
      | ⟨seed, ctxSeeds, branches, checkAny⟩
      | ⟨branches, elseBranch⟩
    · exact ⟨rfl, hok⟩
    · exact ⟨rfl, hok⟩
    · simpa [Node.eval] using
        dispatchBranches_na (Node.eval env f) cx d branches lex st ih hcx hok
    · simp only [Node.eval]
      rcases href : RefIdx.eval (Node.eval env f) env cx r mode
          (reifyValues env lex args) st with ⟨result, st1⟩
      have h1 := RefIdx_eval_na (Node.eval env f) env cx r mode
        (reifyValues env lex args) st ih hcx hok
      rw [href] at h1
      simpa [href] using h1
    · simpa [Node.eval] using
        eval_query_na mode (Node.eval env f) cx env lex index
          (reifyValues env lex args) pattern branches st ih hcx hok
    · simp only [Node.eval]
      rcases hz : tryApplyZip env lex patterns (reifyValues env lex values)
        with ⟨b, lex1⟩
      rcases b with _ | _
      · simpa [hz] using ⟨rfl, hok⟩
      · rcases hseq : evalSequence (Node.eval env f) cx lex1 branches st
          with ⟨o, lex2, st1⟩
        have hs : (evalSequence (Node.eval env f) cx lex1 branches
              st).1.is_action = false
            ∧ CacheOK (evalSequence (Node.eval env f) cx lex1 branches
                st).2.2.cache :=
          seqLoop_na (Node.eval env f) cx ih hcx branches lex1 st hok
        rw [hseq] at hs
        simpa [hz, hseq] using hs
    · simpa [Node.eval] using
        randomLoop_na (Node.eval env f) cx checkAny ih hcx
          (env.shuffle (effSeed env seed ctxSeeds) branches).reverse lex st hok
    · simpa [Node.eval] using
        condLoop_na (Node.eval env f) cx elseBranch ih hcx branches lex st hok

/-- resultNotAction_of_not_action: an `Ok` result whose outcome is not
an action satisfies `resultNotAction`. -/
theorem resultNotAction_of_not_action (o : Outcome)
    (h : o.is_action = false) :
    resultNotAction (Except.ok o) = true := by
  rcases o with _ | _ | a
  · rfl
  · rfl
  · exact absurd h (by simp [Outcome.is_action])

/-- CacheOK_initial: the fresh default cache is well-formed. -/
theorem CacheOK_initial : CacheOK St.initial.cache := by
  intro cl hcl
  cases hcl

/-- C4: for every environment (view and registered handlers), fuel,
root name and argument list, `BehaviorTree::check` never returns
`Ok(Outcome::Action(_))`: the evaluation context is forced inactive
before the root is evaluated, and in an inactive context every
produced action is coerced away at the single `ctx.action` production
site, an invariant that survives the cache because inactive cache
lines only ever store non-action outcomes. -/
theorem check_never_returns_action (env : Env) (fuel : Nat)
    (root : String) (arguments : List Value) :
    resultNotAction (BehaviorTree.check env fuel root arguments) = true := by
  simp only [BehaviorTree.check, evalNodeTop]
  rcases hres : env.ids.resolveRef root arguments.length with e | r
  · rfl
  · rcases r with index | index | index
    · simp only [hres]
      exact resultNotAction_of_not_action _
        (ActionRoot_eval_na (Node.eval env fuel) env
          ((Cx.eval true).to_inactive) (env.ids.getAction index) arguments
          St.initial (node_eval_nonactivating env fuel) rfl
          CacheOK_initial).1
    · simp only [hres]
      exact resultNotAction_of_not_action _
        (NodeRoot_eval_na (Node.eval env fuel)
          ((Cx.eval true).to_inactive) (env.ids.getNode index) arguments
          St.initial (node_eval_nonactivating env fuel) rfl
          CacheOK_initial).1
    · simp only [hres]
      exact resultNotAction_of_not_action _ (outcomeOfBool_not_action _)

end Reagenz
